import Mathlib

set_option maxRecDepth 40000

/-!
Verification development for the `process-manager` batch-import scripts.

The model below is a shallow embedding of the Python sources:

  * `backend/scripts/import_excel_data.py`  (the workbook importer)
  * `backend/scripts/update_status.py`      (the bulk status updater)

Conventions of the embedding:

  * A spreadsheet cell is `Option String`: `none` models a pandas NaN and
    `some v` models a cell whose `str(x)` rendering is `v`.
  * A sheet is a `List (List Cell)` grid of raw cell values (no header),
    exactly as `xl.parse(sheet_name, header=None)` delivers it; pandas
    grids are rectangular, which concrete inputs below respect.
  * The Mongo database is a `Store` record holding the four collections
    used by the scripts plus a fresh-id counter standing for ObjectId
    generation.  `update_one` with a filter acts on the first matching
    record, upserting appends at the end; `$setOnInsert` leaves existing
    records untouched; these are the semantics used by the store
    operations below.
  * `datetime.now()` is modelled by an explicit `now : Nat` parameter
    stamped into `created_at` / `updated_at` fields.
  * Paths that raise an uncaught Python exception (pandas `iloc` out of
    bounds, subscripting `None`) are modelled by `Option`-valued
    functions returning `none`.
-/

/-! ## Generic string helpers -/

/-- Substring test on character lists: `pat` occurs somewhere in the list.
Models the Python `in` operator on strings. -/
def hasSubList (pat : List Char) : List Char → Bool
  | [] => pat.isEmpty
  | c :: rest => pat.isPrefixOf (c :: rest) || hasSubList pat rest

/-- Substring test on strings, models Python `pat in s`. -/
def strHas (s pat : String) : Bool :=
  hasSubList pat.data s.data

/-- Python `.strip()` on a character list: drop leading and trailing
whitespace. -/
def trimChars (cs : List Char) : List Char :=
  ((cs.dropWhile Char.isWhitespace).reverse.dropWhile Char.isWhitespace).reverse

/-- Splitting a character list at every delimiter character (Python
`re.split` on a character class: empty pieces are kept). -/
def splitChars (p : Char → Bool) : List Char → List (List Char)
  | [] => [[]]
  | c :: rest =>
    if p c then [] :: splitChars p rest
    else
      match splitChars p rest with
      | [] => [[c]]
      | piece :: pieces => (c :: piece) :: pieces

/-- Python `.strip()` on strings. -/
def pyStrip (s : String) : String := String.mk (trimChars s.data)

/-- Python `.lower()` on strings (ASCII, as `Char.toLower`). -/
def pyLower (s : String) : String := String.mk (s.data.map Char.toLower)

/-- Python `.upper()` on strings (ASCII, as `Char.toUpper`). -/
def pyUpper (s : String) : String := String.mk (s.data.map Char.toUpper)

/-- Python slicing `s[:n]` on strings. -/
def pyTake (s : String) (n : Nat) : String := String.mk (s.data.take n)

/-! ## Cell model -/

/-- A raw spreadsheet cell: `none` is NaN, `some v` renders as `v`. -/
abbrev Cell := Option String

/-- Models Python `str(x)` on a cell; `str(float('nan'))` is `"nan"`. -/
def cellStr : Cell → String
  | none => "nan"
  | some v => v

/-- Embeds `clean_text` from `import_excel_data.py` (lines 31-34):
NaN becomes `""`, anything else is stringified and stripped. -/
def cleanText : Cell → String
  | none => ""
  | some v => pyStrip v

/-- Models `df.iloc[i, j]`: `none` is an uncaught `IndexError`
(row or column out of bounds), `some c` is the cell. -/
def iloc2 (g : List (List Cell)) (i j : Nat) : Option Cell :=
  match g[i]? with
  | none => none
  | some row => row[j]?

/-! ## Stakeholder / department resolver (lines 213-223) -/

/-- Embeds the base-code computation of lines 220-223: the first three
characters uppercased, replaced by the first letters of the
whitespace-separated words (at most four of them, uppercased) when the
name has more than one word.  `dirName.split()` in Python splits on any
whitespace and drops empty pieces. -/
def baseCodeOf (dirName : String) : String :=
  let base := pyUpper (pyTake dirName 3)
  let words := (splitChars Char.isWhitespace dirName.data).filter (fun w => w ≠ [])
  if words.length > 1 then
    pyUpper (String.mk (((words.map (fun w => w.take 1)).flatten).take 4))
  else base

/-- Embeds lines 215-223: split the directions cell on newline or comma
(`re.split(r'[\n,]', d_content)`), strip each part, keep parts of length
at least two, and pair each kept name with its candidate base code.
The `if d_content:` guard of line 213 is subsumed: an empty cell yields
no candidates either way.  Written as a recursion over the parts to
mirror the source loop. -/
def resolveCandidates (dContent : String) : List (String × String) :=
  go (splitChars (fun c => c = '\n' || c = ',') dContent.data)
where
  go : List (List Char) → List (String × String)
    | [] => []
    | part :: rest =>
      let dirName := String.mk (trimChars part)
      if dirName.length > 1 then (dirName, baseCodeOf dirName) :: go rest
      else go rest

/-! ## Tasks, store records and collections -/

/-- An embedded task (lines 320-324). -/
structure TaskT where
  code : String
  description : String
  order : Nat
deriving DecidableEq, Repr

/-- A `macros` record (lines 101-109); `created_by` is the constant
`CREATED_BY_ID` and is omitted. -/
structure MacroT where
  id : Nat
  code : String
  name : String
  short_description : String
  description : String
  created_at : Nat
  updated_at : Nat
deriving DecidableEq, Repr

/-- A `departments` record (lines 236-245). -/
structure DeptT where
  id : Nat
  name : String
  code : String
  active : Bool
  created_at : Nat
  updated_at : Nat
deriving DecidableEq, Repr

/-- A `job_positions` record (lines 249-258). -/
structure JobPosT where
  id : Nat
  title : String
  department_id : Nat
  code : String
  active : Bool
  created_at : Nat
  updated_at : Nat
deriving DecidableEq, Repr

/-- A `documents` (process) record (lines 269-296).  The constant
`contributors` block and the constant parts of `metadata` are omitted;
`implicated_actors` keeps the only row-dependent metadata field. -/
structure DocT where
  id : Nat
  macro_id : Nat
  process_code : String
  title : String
  description : String
  stakeholders : List String
  tasks : List TaskT
  status : String
  version : String
  is_active : Bool
  implicated_actors : List String
  created_at : Nat
  updated_at : Nat
deriving DecidableEq, Repr

/-- The document store: the four collections touched by the scripts and
a counter standing for ObjectId generation. -/
structure Store where
  macros : List MacroT
  departments : List DeptT
  jobPositions : List JobPosT
  documents : List DocT
  nextId : Nat
deriving DecidableEq, Repr

/-- The empty database, as left by `full_repopulate.py`'s wipe step. -/
def emptyStore : Store := ⟨[], [], [], [], 0⟩

/-- Replace the first element satisfying `p` (Mongo `update_one`
matching semantics); `none` when nothing matches. -/
def replFirst (p : α → Bool) (f : α → α) : List α → Option (List α)
  | [] => none
  | x :: xs =>
    if p x then some (f x :: xs)
    else (replFirst p f xs).map (fun ys => x :: ys)

/-! ## Department code probe (lines 225-233) -/

/-- The candidate sequence tried by the probe loop: `base`, then
`base1`, `base2`, ... (`f"{base_code}{counter}"`). -/
def probeCand (base : String) : Nat → String
  | 0 => base
  | n + 1 => base ++ Nat.repr (n + 1)

/-- Embeds the loop condition of lines 229-231: a candidate code is
accepted when no department holds it, or when the (first) department
holding it already has the candidate's name. -/
def codeOk (depts : List DeptT) (name c : String) : Bool :=
  match depts.find? (fun d => d.code == c) with
  | none => true
  | some d => d.name == name

/-- The probe loop of lines 225-233, with explicit fuel: starting at
candidate index `k`, return the first accepted candidate.  `none` means
the fuel ran out, modelling the (unreachable against a finite store)
divergence of the unbounded `while True`. -/
def probeFrom (depts : List DeptT) (name base : String) : Nat → Nat → Option String
  | 0, _ => none
  | fuel + 1, k =>
    if codeOk depts name (probeCand base k) then some (probeCand base k)
    else probeFrom depts name base fuel (k + 1)

/-- Code-uniqueness resolution for one candidate name: the probe loop
run with enough fuel to cover every department plus a free suffix. -/
def resolveCode (depts : List DeptT) (name base : String) : Option String :=
  probeFrom depts name base (depts.length + 2) 0

/-! ## Macro title extraction (lines 81-92) -/

/-- Matcher for `re.search(r'(Macro\s*\d+)\s*[:|-]\s*(.*)', _, re.IGNORECASE)`
at one fixed start position: `some (g1, g2)` are the two capture groups.
The character classes of consecutive pieces are disjoint, so greedy
matching without backtracking is exact; `.` does not cross a newline. -/
def matchMacroAt (cs : List Char) : Option (List Char × List Char) :=
  let word := cs.take 5
  if word.map Char.toLower = "macro".data then
    let rest1 := cs.drop 5
    let ws1 := rest1.takeWhile Char.isWhitespace
    let rest2 := rest1.dropWhile Char.isWhitespace
    let ds := rest2.takeWhile Char.isDigit
    if ds.isEmpty then none
    else
      let rest3 := (rest2.dropWhile Char.isDigit).dropWhile Char.isWhitespace
      match rest3 with
      | [] => none
      | c :: rest4 =>
        if c = ':' || c = '|' || c = '-' then
          let afterWs := rest4.dropWhile Char.isWhitespace
          some (word ++ ws1 ++ ds, afterWs.takeWhile (fun ch => ch ≠ '\n'))
        else none
  else none

/-- Leftmost search for the macro-title pattern (`re.search`). -/
def macroSearchGo : List Char → Option (List Char × List Char)
  | [] => none
  | c :: rest =>
    match matchMacroAt (c :: rest) with
    | some r => some r
    | none => macroSearchGo rest

/-- Embeds lines 85-92: on a match, the code is capture group 1 with
spaces removed (`.replace(" ", "")`) and the name is capture group 2
stripped; otherwise the code is the first 10 characters of the sheet
name with spaces removed and the name is the sheet name. -/
def macroExtract (macroText sheetName : String) : String × String :=
  match macroSearchGo macroText.data with
  | some (g1, g2) =>
    (String.mk (g1.filter (fun c => c ≠ ' ')), String.mk (trimChars g2))
  | none =>
    (String.mk ((sheetName.data.take 10).filter (fun c => c ≠ ' ')), sheetName)

/-- Embeds line 104: `macro_desc[:100] + "..." if len(macro_desc) > 100
else macro_desc`. -/
def macroShortDesc (d : String) : String :=
  if d.length > 100 then pyTake d 100 ++ "..." else d

/-! ## Bulk status updater (`update_status.py`) -/

/-- Mongo `update_many`: rewrite every record matching `p` with `f`,
reporting how many records were modified. -/
def updateManyCount (p : α → Bool) (f : α → α) : List α → List α × Nat
  | [] => ([], 0)
  | d :: ds =>
    let r := updateManyCount p f ds
    if p d then (f d :: r.1, r.2 + 1) else (d :: r.1, r.2)

/-- Embeds `update_status.py` lines 10-14: set `status` to `"approved"`
on every document whose `status` is `"draft"`, returning the updated
collection and the reported `modified_count`. -/
def updateStatusRun (docs : List DocT) : List DocT × Nat :=
  updateManyCount (fun d => d.status == "draft")
    (fun d => { d with status := "approved" }) docs

/-! ## Store operations (Mongo `update_one` upserts) -/

/-- Fields of a macro upsert (`macro_doc`, lines 101-109). -/
structure MacroFields where
  code : String
  name : String
  short_description : String
  description : String
deriving DecidableEq, Repr

/-- Embeds lines 112-116: full-replace upsert of a macro keyed by
`code`.  An existing record keeps its `_id` and position; otherwise a
fresh record is appended. -/
def macroUpsertRec (now : Nat) (f : MacroFields) (s : Store) : Store :=
  match replFirst (fun m => m.code == f.code)
      (fun m => { m with code := f.code, name := f.name,
                         short_description := f.short_description,
                         description := f.description, created_at := now, updated_at := now })
      s.macros with
  | some ms => { s with macros := ms }
  | none =>
    { s with
      macros := s.macros ++ [⟨s.nextId, f.code, f.name, f.short_description, f.description, now, now⟩],
      nextId := s.nextId + 1 }

/-- Embeds lines 236-245: `$setOnInsert` upsert of a department keyed by
`name`; an existing record is never touched. -/
def deptUpsertIfAbsent (now : Nat) (name code : String) (s : Store) : Store :=
  if s.departments.any (fun d => d.name == name) then s
  else
    { s with
      departments := s.departments ++ [⟨s.nextId, name, code, true, now, now⟩],
      nextId := s.nextId + 1 }

/-- Embeds lines 249-258: `$setOnInsert` upsert of a job position keyed
by `(title, department_id)`; an existing record is never touched. -/
def jobPosUpsertIfAbsent (now : Nat) (title : String) (deptId : Nat) (code : String)
    (s : Store) : Store :=
  if s.jobPositions.any (fun j => j.title == title && j.department_id == deptId) then s
  else
    { s with
      jobPositions := s.jobPositions ++ [⟨s.nextId, title, deptId, code, true, now, now⟩],
      nextId := s.nextId + 1 }

/-- Fields of a document upsert (`doc_data`, lines 269-296); `tasks` is
always reset to `[]` there (line 275). -/
structure DocFields where
  macro_id : Nat
  process_code : String
  title : String
  description : String
  stakeholders : List String
deriving DecidableEq, Repr

/-- Embeds lines 300-304: full-replace upsert of a document keyed by
`(title, macro_id)`; an existing record keeps its `_id` and position. -/
def docUpsertRec (now : Nat) (f : DocFields) (s : Store) : Store :=
  match replFirst (fun d => d.title == f.title && d.macro_id == f.macro_id)
      (fun d => { d with macro_id := f.macro_id, process_code := f.process_code,
                         title := f.title, description := f.description,
                         stakeholders := f.stakeholders, tasks := [], status := "draft",
                         version := "1.0", is_active := true,
                         implicated_actors := f.stakeholders,
                         created_at := now, updated_at := now })
      s.documents with
  | some ds => { s with documents := ds }
  | none =>
    { s with
      documents := s.documents ++
        [⟨s.nextId, f.macro_id, f.process_code, f.title, f.description, f.stakeholders,
          [], "draft", "1.0", true, f.stakeholders, now, now⟩],
      nextId := s.nextId + 1 }

/-- Embeds lines 199-202 / 329-332: `update_one({'_id': id}, {'$set':
{'tasks': tasks}})` — set the task list of the first document with the
given id; no match is a silent no-op. -/
def setTasksById (docId : Nat) (tasks : List TaskT) (s : Store) : Store :=
  match replFirst (fun d => d.id == docId) (fun d => { d with tasks := tasks }) s.documents with
  | some ds => { s with documents := ds }
  | none => s

/-! ## Stakeholder processing (lines 212-260) -/

/-- One iteration of the stakeholder loop body for a surviving candidate
`(name, base)`: probe a unique code, upsert the department, fetch it,
and upsert the matching job position (code suffixed `"-H"`). `none`
models the probe running out of fuel (the `while True` diverging) or an
impossible failed re-fetch. -/
def stakeholderStep (now : Nat) (s : Store) (name base : String) : Option Store :=
  match resolveCode s.departments name base with
  | none => none
  | some code =>
    let s1 := deptUpsertIfAbsent now name code s
    match s1.departments.find? (fun d => d.name == name) with
    | none => none
    | some dept => some (jobPosUpsertIfAbsent now name dept.id (code ++ "-H") s1)

/-- The stakeholder loop of lines 212-260 over the resolved candidates,
returning the updated store and the accumulated `stakeholders` list of
names (appended at line 260 regardless of prior existence). -/
def processStakeholders (now : Nat) : List (String × String) → Store → Option (Store × List String)
  | [], s => some (s, [])
  | (name, base) :: rest, s =>
    match stakeholderStep now s name base with
    | none => none
    | some s1 =>
      match processStakeholders now rest s1 with
      | none => none
      | some (s2, ns) => some (s2, name :: ns)

/-! ## Row data and the row loop (lines 162-334) -/

/-- The four cell reads of one data row (lines 173-185), already
cleaned.  The `try/except` around the reads cannot fire in this model:
the bounds-checked reads are total. -/
structure RowData where
  pTitle : String
  pDesc : String
  tContent : String
  dContent : String
deriving DecidableEq, Repr

/-- The currently open process group: `current_process_title` plus the
`process_code` and `_id` of `current_process_doc` (lines 163-164, 305). -/
structure CurProc where
  title : String
  pcode : String
  docId : Nat
deriving DecidableEq, Repr

/-- A flush event: the arguments of one `tasks`-update write (lines
199-202 and 329-332), recorded for the group that just closed. -/
structure ProcGroup where
  title : String
  processCode : String
  tasks : List TaskT
deriving DecidableEq, Repr

/-- Close the currently open group, if any: write its accumulated tasks
into its document and record the flush event. -/
def flushCur (cur : Option CurProc) (tasks : List TaskT) (s : Store) : Store × List ProcGroup :=
  match cur with
  | none => (s, [])
  | some c => (setTasksById c.docId tasks s, [⟨c.title, c.pcode, tasks⟩])

/-- The data-row loop of lines 170-334, including the final flush.
State: the open group, its accumulated tasks, the sheet-scoped process
count, and the store.  Returns the final store and the ordered list of
flush events; `none` models the uncaught `TypeError` of line 318
(subscripting `current_process_doc` while it is still `None`) and probe
divergence. -/
def importRows (now : Nat) (macroCode : String) (macroId : Nat) :
    List RowData → Option CurProc → List TaskT → Nat → Store → Option (Store × List ProcGroup)
  | [], cur, tasks, _cnt, s =>
    let fl := flushCur cur tasks s
    some (fl.1, fl.2)
  | r :: rest, cur, tasks, cnt, s =>
    if r.pTitle != "" && cur.all (fun c => c.title != r.pTitle) then
      -- lines 195-305: flush the previous group, then open a new one
      let fl := flushCur cur tasks s
      let cnt' := cnt + 1
      match processStakeholders now (resolveCandidates r.dContent) fl.1 with
      | none => none
      | some (s2, stks) =>
        let pref := macroCode ++ "_P" ++ Nat.repr cnt'
        let s3 := docUpsertRec now ⟨macroId, pref, r.pTitle, r.pDesc, stks⟩ s2
        match s3.documents.find? (fun d => d.title == r.pTitle && d.macro_id == macroId) with
        | none => none
        | some d =>
          let cur' : Option CurProc := some ⟨r.pTitle, d.process_code, d.id⟩
          -- lines 307-325 on the same row, with the freshly reset task list
          if r.tContent != "" then
            let t : TaskT := ⟨d.process_code ++ "_T" ++ Nat.repr 1, r.tContent, 1⟩
            (importRows now macroCode macroId rest cur' [t] cnt' s3).map
              (fun p => (p.1, fl.2 ++ p.2))
          else
            (importRows now macroCode macroId rest cur' [] cnt' s3).map
              (fun p => (p.1, fl.2 ++ p.2))
    else
      -- continuation row (or empty title): lines 307-325 only
      if r.tContent != "" then
        match cur with
        | none => none
        | some c =>
          let t : TaskT := ⟨c.pcode ++ "_T" ++ Nat.repr (tasks.length + 1), r.tContent,
                            tasks.length + 1⟩
          importRows now macroCode macroId rest cur (tasks ++ [t]) cnt s
      else
        importRows now macroCode macroId rest cur tasks cnt s

/-! ## Header detection and column mapping (lines 122-160) -/

/-- One header-row test of line 127: some stringified lower-cased cell
contains `"process"` and some cell contains `"tâches"`. -/
def isHeaderRow (row : List Cell) : Bool :=
  row.any (fun c => strHas (pyLower (cellStr c)) "process") &&
  row.any (fun c => strHas (pyLower (cellStr c)) "tâches")

/-- The scan loop of lines 124-129 over the index list `range 10`:
`none` models the uncaught `IndexError` of `df.iloc[i]` when the sheet
has fewer rows than the scan reaches; `some none` is the not-found
result (`header_row_idx == -1`); `some (some i)` is the found index. -/
def findHeaderGo (g : List (List Cell)) : List Nat → Option (Option Nat)
  | [] => some none
  | i :: is =>
    match g[i]? with
    | none => none
    | some row => if isHeaderRow row then some (some i) else findHeaderGo g is

/-- Header-row detection (lines 124-129): scan the first 10 rows. -/
def findHeaderRow (g : List (List Cell)) : Option (Option Nat) :=
  findHeaderGo g (List.range 10)

/-- The keyword-based column assignments accumulated by lines 138-148;
`none` means the role keyword never matched. -/
structure ColAssign where
  pt : Option Nat := none
  pd : Option Nat := none
  tk : Option Nat := none
  dr : Option Nat := none
deriving DecidableEq, Repr

/-- One header cell of the mapping loop (lines 139-148): the value is
stringified, lower-cased and stripped; the first matching keyword rule
assigns this column index to its role (later cells may overwrite). -/
def colStep (m : ColAssign) (iv : Nat × Cell) : ColAssign :=
  let v := pyStrip (pyLower (cellStr iv.2))
  if strHas v "process" && !strHas v "description" && v.length < 20 then
    { m with pt := some iv.1 }
  else if strHas v "description" && strHas v "process" then
    { m with pd := some iv.1 }
  else if strHas v "tâches" then
    { m with tk := some iv.1 }
  else if strHas v "concernées" || strHas v "directions" then
    { m with dr := some iv.1 }
  else m

/-- The final column-role map after the positional fallbacks of lines
157-160 (process-title=1, process-description=2, tasks=3, directions=4). -/
structure ColIdx where
  pt : Nat
  pd : Nat
  tk : Nat
  dr : Nat
deriving DecidableEq, Repr

/-- Column mapping for a header row (lines 136-160). -/
def buildColMap (headers : List Cell) : ColIdx :=
  let m := headers.enum.foldl colStep {}
  ⟨m.pt.getD 1, m.pd.getD 2, m.tk.getD 3, m.dr.getD 4⟩

/-- One bounds-checked cell read of lines 175-185: a column index at or
beyond `df.shape[1]` reads as `""`, otherwise the cell is cleaned. -/
def readCellAt (row : List Cell) (width idx : Nat) : String :=
  if width ≤ idx then "" else cleanText (row[idx]?.getD none)

/-- The four cell reads of one data row (lines 173-185). -/
def readRow (cmap : ColIdx) (width : Nat) (row : List Cell) : RowData :=
  ⟨readCellAt row width cmap.pt, readCellAt row width cmap.pd,
   readCellAt row width cmap.tk, readCellAt row width cmap.dr⟩

/-! ## Per-sheet import (lines 66-336) -/

/-- The macro fields computed from the sheet prefix (lines 81-109),
given the already-read title cell text and description. -/
def macroFieldsOf (macroText sheetName mdesc : String) : MacroFields :=
  let cn := macroExtract macroText sheetName
  ⟨cn.1, cn.2, macroShortDesc mdesc, mdesc⟩

/-- Per-sheet import (the body of the `for sheet_name` loop, lines
66-336): read the fixed macro cells, upsert the macro, detect the
header row, map columns, and run the data-row loop.  `df.shape[1]` is
the uniform row width of the rectangular pandas grid, here the width of
the first row.  `none` models any uncaught exception aborting the run;
`some` is the store after the sheet (including the skip path of line
133, which has already upserted the macro). -/
def importSheet (now : Nat) (sheetName : String) (g : List (List Cell)) (s : Store) :
    Option Store :=
  match iloc2 g 0 0 with
  | none => none
  | some c0 =>
    let macroText := cleanText c0
    let descStep : Option String :=
      if 3 < g.length then (iloc2 g 3 0).map cleanText else some ""
    match descStep with
    | none => none
    | some mdesc =>
      let mf := macroFieldsOf macroText sheetName mdesc
      let s1 := macroUpsertRec now mf s
      match s1.macros.find? (fun m => m.code == mf.code) with
      | none => none
      | some mrec =>
        match findHeaderRow g with
        | none => none
        | some none => some s1
        | some (some h) =>
          let cmap := buildColMap (g[h]?.getD [])
          let width := (g.headD []).length
          let rows := (g.drop (h + 1)).map (readRow cmap width)
          match importRows now mf.code mrec.id rows none [] 0 s1 with
          | none => none
          | some p => some p.1

/-- A workbook: the sheets in order, each with its name and grid. -/
abbrev Workbook := List (String × List (List Cell))

/-- The whole importer run (`import_data`, lines 53-342): process the
sheets in order; any uncaught exception aborts the run. -/
def importData (now : Nat) : Workbook → Store → Option Store
  | [], s => some s
  | (nm, g) :: rest, s =>
    match importSheet now nm g s with
    | none => none
    | some s1 => importData now rest s1

/-! ## Theorems -/

lemma resolveCandidates_go_eq (parts : List (List Char)) :
    resolveCandidates.go parts =
      (((parts.map (fun p => String.mk (trimChars p))).filter
          (fun n => 2 ≤ n.length)).map (fun n => (n, baseCodeOf n))) := by
  induction parts with
  | nil => rfl
  | cons p rest ih =>
    simp only [resolveCandidates.go, List.map_cons, List.filter_cons]
    by_cases h : (String.mk (trimChars p)).length > 1
    · have h2 : decide (2 ≤ (String.mk (trimChars p)).length) = true := by
        simp only [decide_eq_true_eq]; omega
      rw [if_pos h, h2, ih]
      rfl
    · have h2 : decide (2 ≤ (String.mk (trimChars p)).length) = false := by
        simp only [decide_eq_false_iff_not]; omega
      rw [if_neg h, h2, ih]
      rfl

/-- C2: the stakeholder resolver splits the directions cell on newline
or comma, trims each piece, discards candidates shorter than two
characters, and assigns codes as the spec states (first three characters
uppercased for a single whitespace-separated word, else the first
letters of the words, at most four, uppercased); on the input
"Direction Network Engineering, IT" it yields exactly the candidates
("Direction Network Engineering", "DNE") and ("IT", "IT") in order. -/
theorem c2_stakeholder_resolver :
    (∀ d : String,
      resolveCandidates d =
        ((((splitChars (fun c => c = '\n' || c = ',') d.data).map
              (fun p => String.mk (trimChars p))).filter
            (fun n => 2 ≤ n.length)).map (fun n => (n, baseCodeOf n)))) ∧
    (∀ n : String,
      baseCodeOf n =
        if ((splitChars Char.isWhitespace n.data).filter (fun w => w ≠ [])).length ≤ 1 then
          pyUpper (pyTake n 3)
        else
          pyUpper (String.mk (((((splitChars Char.isWhitespace n.data).filter
            (fun w => w ≠ [])).map (fun w => w.take 1)).flatten).take 4))) ∧
    resolveCandidates "Direction Network Engineering, IT" =
      [("Direction Network Engineering", "DNE"), ("IT", "IT")] := by
  refine ⟨fun d => resolveCandidates_go_eq _, fun n => ?_, by decide⟩
  simp only [baseCodeOf]
  split_ifs with h1 h2 h3 <;> first | rfl | omega

/-- C8: the stored short description is the description itself when its
length is at most 100 characters, and the first 100 characters followed
by "..." when it is longer; the ellipsis is appended only in the
truncation case. -/
theorem c8_short_description_truncation (d : String) :
    (d.length ≤ 100 → macroShortDesc d = d) ∧
    (100 < d.length → macroShortDesc d = pyTake d 100 ++ "...") ∧
    (macroShortDesc d = d ∨ (100 < d.length ∧ macroShortDesc d = pyTake d 100 ++ "...")) := by
  unfold macroShortDesc
  by_cases h : d.length > 100
  · rw [if_pos h]
    exact ⟨fun hle => absurd h (by omega), fun _ => rfl, Or.inr ⟨h, rfl⟩⟩
  · rw [if_neg h]
    exact ⟨fun _ => rfl, fun hgt => absurd hgt h, Or.inl rfl⟩

theorem c8_short_description_truncation_witness :
    macroShortDesc "short text" = "short text" ∧
    macroShortDesc (String.mk (List.replicate 150 'a')) =
      pyTake (String.mk (List.replicate 150 'a')) 100 ++ "..." :=
  ⟨(c8_short_description_truncation "short text").1 (by decide),
   (c8_short_description_truncation (String.mk (List.replicate 150 'a'))).2.1 (by decide)⟩

lemma updateManyCount_eq (p : α → Bool) (f : α → α) (xs : List α) :
    updateManyCount p f xs =
      (xs.map (fun x => if p x then f x else x), (xs.filter p).length) := by
  induction xs with
  | nil => rfl
  | cons x xs ih =>
    simp only [updateManyCount, ih, List.map_cons, List.filter_cons]
    by_cases h : p x <;> simp [h]

/-- C7: the bulk status updater rewrites exactly the documents whose
status is "draft", changing only their status field to "approved",
reports the number of draft documents as its modified count, and — when
every document is in status "draft" or "approved" — leaves every
document in status "approved". -/
theorem c7_bulk_status_updater (docs : List DocT) :
    (updateStatusRun docs).1 =
      docs.map (fun d => if d.status == "draft" then { d with status := "approved" } else d) ∧
    (updateStatusRun docs).2 = (docs.filter (fun d => d.status == "draft")).length ∧
    ((∀ d ∈ docs, d.status = "draft" ∨ d.status = "approved") →
      ∀ d ∈ (updateStatusRun docs).1, d.status = "approved") := by
  have he := updateManyCount_eq (fun d => d.status == "draft")
    (fun d => { d with status := "approved" }) docs
  refine ⟨by rw [updateStatusRun, he], by rw [updateStatusRun, he], ?_⟩
  intro hall d hd
  rw [updateStatusRun, he] at hd
  simp only [List.mem_map] at hd
  obtain ⟨d0, hd0, hmap⟩ := hd
  by_cases h : d0.status == "draft"
  · rw [if_pos h] at hmap; rw [← hmap]
  · rw [if_neg h] at hmap
    rcases hall d0 hd0 with hdr | hap
    · exact absurd (by simp [hdr]) h
    · rw [← hmap]; exact hap

/-- A minimal draft-status document, used by concrete scenarios. -/
def draftDoc (i : Nat) : DocT := ⟨i, 0, "", "", "", [], [], "draft", "1.0", true, [], 0, 0⟩

/-- A minimal approved-status document, used by concrete scenarios. -/
def approvedDoc (i : Nat) : DocT := ⟨i, 0, "", "", "", [], [], "approved", "1.0", true, [], 0, 0⟩

/-- The 5-draft / 3-approved scenario store contents. -/
def statusDocs : List DocT :=
  [draftDoc 1, draftDoc 2, draftDoc 3, draftDoc 4, draftDoc 5,
   approvedDoc 6, approvedDoc 7, approvedDoc 8]

theorem c7_bulk_status_updater_witness :
    (∀ d ∈ (updateStatusRun statusDocs).1, d.status = "approved") ∧
    (updateStatusRun statusDocs).2 = 5 :=
  ⟨(c7_bulk_status_updater statusDocs).2.2 (by decide),
   by rw [(c7_bulk_status_updater statusDocs).2.1]; decide⟩

lemma toDigitsCore_ne_nil (b : Nat) :
    ∀ (f n : Nat) (l : List Char), l ≠ [] → Nat.toDigitsCore b f n l ≠ [] := by
  intro f
  induction f with
  | zero => intro n l h; simpa [Nat.toDigitsCore] using h
  | succ f ih =>
    intro n l h
    unfold Nat.toDigitsCore
    by_cases hz : n / b = 0
    · simp [hz]
    · have := ih (n / b) (Nat.digitChar (n % b) :: l) (by simp)
      simpa [hz] using this

lemma natRepr_length_pos (n : Nat) : 0 < (Nat.repr n).length := by
  have h : Nat.toDigits 10 n ≠ [] := by
    unfold Nat.toDigits Nat.toDigitsCore
    by_cases hz : n / 10 = 0
    · simp [hz]
    · have := toDigitsCore_ne_nil 10 n (n / 10) [Nat.digitChar (n % 10)] (by simp)
      simpa [hz] using this
  have hlen : (Nat.repr n).length = (Nat.toDigits 10 n).length := rfl
  rw [hlen]
  exact List.length_pos.mpr h

lemma probeCand_succ_ne_base (base : String) (k : Nat) :
    probeCand base (k + 1) ≠ base := by
  intro h
  have hlen : (base ++ Nat.repr (k + 1)).length = base.length := by
    rw [show probeCand base (k + 1) = base ++ Nat.repr (k + 1) from rfl] at h
    rw [h]
  rw [String.length_append] at hlen
  have := natRepr_length_pos (k + 1)
  omega

lemma probeFrom_pos_ne_base (depts : List DeptT) (name base : String) :
    ∀ (fuel k : Nat), 1 ≤ k → ∀ c, probeFrom depts name base fuel k = some c → c ≠ base := by
  intro fuel
  induction fuel with
  | zero => intro k _ c hc; simp [probeFrom] at hc
  | succ fuel ih =>
    intro k hk c hc
    rw [probeFrom] at hc
    split at hc
    · obtain ⟨k', rfl⟩ : ∃ k', k = k' + 1 := ⟨k - 1, by omega⟩
      rw [← Option.some_inj.mp hc]
      exact probeCand_succ_ne_base base k'
    · exact ih (k + 1) (by omega) c hc

/-- C3: the code probe accepts the base code when it is free or already
owned by a same-named department (in particular an identically named
department never triggers suffixing), otherwise walks the suffixed
candidates and — when the first suffix is acceptable — returns `base1`;
consequently a candidate whose base code is held by a differently named
department never receives the base code, so two distinct names with the
same base code end up with distinct codes. -/
theorem c3_department_code_probe (depts : List DeptT) (name base : String) :
    (codeOk depts name base = true → resolveCode depts name base = some base) ∧
    (∀ d0, depts.find? (fun d => d.code == base) = some d0 → d0.name = name →
      resolveCode depts name base = some base) ∧
    (codeOk depts name base = false → codeOk depts name (base ++ "1") = true →
      resolveCode depts name base = some (base ++ "1")) ∧
    (∀ d0, depts.find? (fun d => d.code == base) = some d0 → d0.name ≠ name →
      ∀ c, resolveCode depts name base = some c → c ≠ base) := by
  refine ⟨?_, ?_, ?_, ?_⟩
  · intro hok
    rw [resolveCode, show depts.length + 2 = (depts.length + 1) + 1 from rfl, probeFrom,
      if_pos (show codeOk depts name (probeCand base 0) = true from hok)]
    rfl
  · intro d0 hfind hname
    have hok : codeOk depts name base = true := by
      rw [codeOk, hfind]
      simp [hname]
    rw [resolveCode, show depts.length + 2 = (depts.length + 1) + 1 from rfl, probeFrom,
      if_pos (show codeOk depts name (probeCand base 0) = true from hok)]
    rfl
  · intro hbad hok1
    have h0 : ¬ codeOk depts name (probeCand base 0) = true := by
      rw [show probeCand base 0 = base from rfl, hbad]; simp
    have hc1 : probeCand base (0 + 1) = base ++ "1" := rfl
    rw [resolveCode, show depts.length + 2 = (depts.length + 1) + 1 from rfl, probeFrom,
      if_neg h0, probeFrom, hc1, if_pos hok1]
  · intro d0 hfind hname c hc
    have hbad : codeOk depts name base = false := by
      rw [codeOk, hfind]
      simp [hname]
    rw [resolveCode, show depts.length + 2 = (depts.length + 1) + 1 from rfl, probeFrom,
      if_neg (show ¬ codeOk depts name (probeCand base 0) = true by
        rw [show probeCand base 0 = base from rfl, hbad]; simp)] at hc
    exact probeFrom_pos_ne_base depts name base (depts.length + 1) 1 (by omega) c hc

/-- Concrete store for the probe scenario: one department "Alpha Beta"
holding code "AB". -/
def probeDepts : List DeptT := [⟨0, "Alpha Beta", "AB", true, 0, 0⟩]

theorem c3_department_code_probe_witness :
    resolveCode probeDepts "Alpha Beta" "AB" = some "AB" ∧
    resolveCode probeDepts "Axe Bow" "AB" = some "AB1" ∧
    ("AB1" : String) ≠ "AB" :=
  ⟨(c3_department_code_probe probeDepts "Alpha Beta" "AB").1 (by decide),
   (c3_department_code_probe probeDepts "Axe Bow" "AB").2.2.1 (by decide) (by decide),
   by decide⟩

/-- C6 counterexample: the title "Macro 1 | Net" does not fit the
claim's pattern (separator ':' or '-'), so the claim requires the
sheet-name fallback ("SheetX", "SheetX"); but the regex character class
`[:|-]` also admits '|', so the code extracts ("Macro1", "Net"). -/
theorem c6_macro_pipe_counterexample :
    macroExtract "Macro 1 | Net" "SheetX" = ("Macro1", "Net") ∧
    macroExtract "Macro 1 | Net" "SheetX" ≠ ("SheetX", "SheetX") := by
  constructor
  · decide
  · decide

/-- C6 (amended): a title in which the pattern `Macro <number>` followed
by a separator ':', '-' or '|' (the regex class `[:|-]`) occurs yields
the matched `Macro <number>` token with spaces removed as code and the
trimmed remainder of the line as name; when the regex finds no match the
code is the first 10 characters of the sheet name with spaces removed
and the name is the full sheet name. -/
theorem c6_macro_extraction_amended :
    macroExtract "Macro 03: Network Security" "AnySheet" = ("Macro03", "Network Security") ∧
    macroExtract "Macro 7 - Ops" "AnySheet" = ("Macro7", "Ops") ∧
    macroExtract "Macro 1 | Net" "AnySheet" = ("Macro1", "Net") ∧
    (∀ t s : String, macroSearchGo t.data = none →
      macroExtract t s = (String.mk ((s.data.take 10).filter (fun c => c ≠ ' ')), s)) ∧
    macroExtract "Overview" "Network Security Ops" = ("NetworkSe", "Network Security Ops") := by
  refine ⟨by decide, by decide, by decide, ?_, by decide⟩
  intro t s h
  rw [macroExtract, h]

theorem c6_macro_extraction_amended_witness :
    macroExtract "Team Notes" "Sheet One" = ("SheetOne", "Sheet One") :=
  c6_macro_extraction_amended.2.2.2.1 "Team Notes" "Sheet One" (by decide)

/-- Spec-side description of header detection: the index of the first
row whose cells contain both markers. -/
def firstHeaderIdx : List (List Cell) → Option Nat
  | [] => none
  | r :: rs => if isHeaderRow r then some 0 else (firstHeaderIdx rs).map (fun k => k + 1)

lemma findHeaderGo_range' (g : List (List Cell)) :
    ∀ (n i : Nat), i + n ≤ g.length →
      findHeaderGo g (List.range' i n) =
        some ((firstHeaderIdx ((g.drop i).take n)).map (fun k => i + k)) := by
  intro n
  induction n with
  | zero => intro i _; simp [findHeaderGo, firstHeaderIdx]
  | succ n ih =>
    intro i hb
    have hi : i < g.length := by omega
    rw [List.range'_succ, findHeaderGo, List.getElem?_eq_getElem hi,
      List.drop_eq_getElem_cons hi, List.take_succ_cons, firstHeaderIdx]
    dsimp only
    by_cases hh : isHeaderRow g[i]
    · rw [if_pos hh, if_pos hh]
      simp
    · rw [if_neg hh, if_neg hh, ih (i + 1) (by omega), Option.map_map]
      congr 1
      congr 1
      funext k
      simp only [Function.comp_apply]
      omega

lemma findHeaderRow_eq_of_len (g : List (List Cell)) (h : 10 ≤ g.length) :
    findHeaderRow g = some (firstHeaderIdx (g.take 10)) := by
  rw [findHeaderRow, List.range_eq_range' 10, findHeaderGo_range' g 10 0 (by omega),
    List.drop_zero]
  congr 1
  cases firstHeaderIdx (g.take 10) <;> simp

lemma findHeaderGo_bound (g : List (List Cell)) :
    ∀ is, findHeaderGo g is = some none → ∀ i ∈ is, i < g.length := by
  intro is
  induction is with
  | nil => intro _ i hi; cases hi
  | cons j js ih =>
    intro h i hi
    rw [findHeaderGo] at h
    cases hc : g[j]? with
    | none => rw [hc] at h; simp at h
    | some row =>
      rw [hc] at h
      dsimp only at h
      by_cases hh : isHeaderRow row
      · rw [if_pos hh] at h; simp at h
      · rw [if_neg hh] at h
        cases hi with
        | head => exact (List.getElem?_eq_some.mp hc).1
        | tail _ hm => exact ih h i hm

lemma findHeaderRow_skip_len (g : List (List Cell)) (h : findHeaderRow g = some none) :
    10 ≤ g.length := by
  have h9 := findHeaderGo_bound g (List.range 10) h 9 (by simp)
  omega

lemma replFirst_none_iff (p : α → Bool) (f : α → α) (l : List α) :
    replFirst p f l = none ↔ l.find? p = none := by
  induction l with
  | nil => simp [replFirst]
  | cons a as ih =>
    rw [replFirst]
    by_cases h : p a
    · simp [h, List.find?_cons_of_pos]
    · simp [h, List.find?_cons_of_neg, ih, Option.map_eq_none']

lemma replFirst_find? (p : α → Bool) (f : α → α) (hp : ∀ x, p x = true → p (f x) = true) :
    ∀ (l l' : List α), replFirst p f l = some l' →
      ∃ x, l.find? p = some x ∧ l'.find? p = some (f x) := by
  intro l
  induction l with
  | nil => intro l' h; cases h
  | cons a as ih =>
    intro l' h
    rw [replFirst] at h
    by_cases hpa : p a
    · rw [if_pos hpa] at h
      obtain rfl : f a :: as = l' := Option.some_inj.mp h
      exact ⟨a, List.find?_cons_of_pos _ hpa, List.find?_cons_of_pos _ (hp a hpa)⟩
    · rw [if_neg hpa] at h
      cases hre : replFirst p f as with
      | none => rw [hre] at h; cases h
      | some as' =>
        rw [hre] at h
        obtain rfl : a :: as' = l' := Option.some_inj.mp h
        obtain ⟨x, h1, h2⟩ := ih as' hre
        exact ⟨x, by rw [List.find?_cons_of_neg _ hpa, h1],
               by rw [List.find?_cons_of_neg _ hpa, h2]⟩

lemma macroUpsertRec_frame (now : Nat) (f : MacroFields) (s : Store) :
    (macroUpsertRec now f s).departments = s.departments ∧
    (macroUpsertRec now f s).jobPositions = s.jobPositions ∧
    (macroUpsertRec now f s).documents = s.documents := by
  unfold macroUpsertRec
  split <;> exact ⟨rfl, rfl, rfl⟩

lemma macroUpsertRec_find (now : Nat) (f : MacroFields) (s : Store) :
    ∃ m, (macroUpsertRec now f s).macros.find? (fun x => x.code == f.code) = some m := by
  unfold macroUpsertRec
  split
  next ms hms =>
    obtain ⟨x, _, h2⟩ := replFirst_find? (fun m => m.code == f.code)
      (fun m => { m with code := f.code, name := f.name,
                         short_description := f.short_description,
                         description := f.description, created_at := now, updated_at := now })
      (fun x _ => by simp) s.macros ms hms
    exact ⟨_, h2⟩
  next hms =>
    refine ⟨⟨s.nextId, f.code, f.name, f.short_description, f.description, now, now⟩, ?_⟩
    rw [List.find?_append, (replFirst_none_iff _ _ _).mp hms]
    simp [List.find?_cons_of_pos]

/-- The macro fields a sheet yields, read from the fixed cells
(row 0 / column 0 and, when the sheet has more than three rows,
row 3 / column 0). -/
def sheetMacroFields (sheetName : String) (g : List (List Cell)) : MacroFields :=
  macroFieldsOf (cleanText ((g[0]?.getD []).headD none)) sheetName
    (if 3 < g.length then cleanText ((g[3]?.getD []).headD none) else "")

lemma importSheet_skip (now : Nat) (sheetName : String) (g : List (List Cell)) (s : Store)
    (hh : findHeaderRow g = some none) (hr : ∀ r ∈ g, r ≠ []) :
    importSheet now sheetName g s =
      some (macroUpsertRec now (sheetMacroFields sheetName g) s) := by
  have h10 : 10 ≤ g.length := findHeaderRow_skip_len g hh
  have h0l : 0 < g.length := by omega
  have h3l : 3 < g.length := by omega
  obtain ⟨a0, t0, he0⟩ := List.exists_cons_of_ne_nil (hr g[0] (List.getElem_mem h0l))
  obtain ⟨a3, t3, he3⟩ := List.exists_cons_of_ne_nil (hr g[3] (List.getElem_mem h3l))
  have hc0 : iloc2 g 0 0 = some a0 := by
    rw [iloc2, List.getElem?_eq_getElem h0l, he0]; simp
  have hc3 : iloc2 g 3 0 = some a3 := by
    rw [iloc2, List.getElem?_eq_getElem h3l, he3]; simp
  have hm : sheetMacroFields sheetName g =
      macroFieldsOf (cleanText a0) sheetName (cleanText a3) := by
    rw [sheetMacroFields, List.getElem?_eq_getElem h0l, he0,
      List.getElem?_eq_getElem h3l, he3, if_pos h3l]
    rfl
  obtain ⟨m, hfind⟩ := macroUpsertRec_find now
    (macroFieldsOf (cleanText a0) sheetName (cleanText a3)) s
  rw [importSheet, hc0]
  dsimp only
  rw [if_pos h3l, hc3]
  simp only [Option.map_some']
  rw [hfind]
  dsimp only
  rw [hh]
  dsimp only
  rw [hm]

/-- C4 counterexample: a one-row sheet with no header markers.  The
claim says such a sheet is skipped non-fatally with no records created;
the code instead hits `df.iloc[1]` out of bounds — an uncaught
IndexError (modelled `none`) that aborts the whole run. -/
theorem c4_short_sheet_counterexample :
    ([[some "hello"]] : List (List Cell)).all (fun r => !isHeaderRow r) = true ∧
    findHeaderRow [[some "hello"]] = none ∧
    importSheet 0 "S1" [[some "hello"]] emptyStore = none ∧
    importData 0 [("S1", [[some "hello"]])] emptyStore = none := by
  refine ⟨by decide, by decide, by decide, by decide⟩

/-- C4 (amended): header detection scans the first 10 rows for the first
row containing both "process" and "tâches"; on sheets with AT LEAST 10
rows and no such row, the sheet is skipped and no department,
job-position or document record is touched.  (On sheets with fewer than
10 rows and no header row the scan instead raises an uncaught
IndexError, aborting the run — see the counterexample.) -/
theorem c4_header_detection_amended :
    (∀ g : List (List Cell), 10 ≤ g.length →
      findHeaderRow g = some (firstHeaderIdx (g.take 10))) ∧
    (∀ (now : Nat) (sheetName : String) (g : List (List Cell)) (s : Store),
      firstHeaderIdx (g.take 10) = none → 10 ≤ g.length → (∀ r ∈ g, r ≠ []) →
      ∃ s', importSheet now sheetName g s = some s' ∧
        s'.departments = s.departments ∧
        s'.jobPositions = s.jobPositions ∧
        s'.documents = s.documents) := by
  refine ⟨fun g h => findHeaderRow_eq_of_len g h, ?_⟩
  intro now sheetName g s hnone h10 hr
  have hh : findHeaderRow g = some none := by
    rw [findHeaderRow_eq_of_len g h10, hnone]
  refine ⟨macroUpsertRec now (sheetMacroFields sheetName g) s,
    importSheet_skip now sheetName g s hh hr, ?_, ?_, ?_⟩
  · exact (macroUpsertRec_frame now _ s).1
  · exact (macroUpsertRec_frame now _ s).2.1
  · exact (macroUpsertRec_frame now _ s).2.2

/-- A 10-row, headerless, 1-column sheet used as the concrete skipped
sheet. -/
def skipGrid : List (List Cell) :=
  [[some "Macro 02: Ops"], [none], [none], [some "details"], [none],
   [none], [none], [none], [none], [none]]

theorem c4_header_detection_amended_witness :
    ∃ s', importSheet 7 "S2" skipGrid emptyStore = some s' ∧
      s'.departments = emptyStore.departments ∧
      s'.jobPositions = emptyStore.jobPositions ∧
      s'.documents = emptyStore.documents :=
  c4_header_detection_amended.2 7 "S2" skipGrid emptyStore (by decide) (by decide) (by decide)

/-- C9: the macro record is upserted before header detection runs, so a
sheet whose header detection fails still mutates the macros collection:
the skip path returns the store with exactly the macro upsert applied,
leaving departments, job positions and documents untouched. -/
theorem c9_skip_path_macro_mutation (now : Nat) (sheetName : String) (g : List (List Cell))
    (s : Store) (hh : findHeaderRow g = some none) (hr : ∀ r ∈ g, r ≠ []) :
    importSheet now sheetName g s =
      some (macroUpsertRec now (sheetMacroFields sheetName g) s) ∧
    (macroUpsertRec now (sheetMacroFields sheetName g) s).departments = s.departments ∧
    (macroUpsertRec now (sheetMacroFields sheetName g) s).jobPositions = s.jobPositions ∧
    (macroUpsertRec now (sheetMacroFields sheetName g) s).documents = s.documents :=
  ⟨importSheet_skip now sheetName g s hh hr, (macroUpsertRec_frame now _ s).1,
   (macroUpsertRec_frame now _ s).2.1, (macroUpsertRec_frame now _ s).2.2⟩

theorem c9_skip_path_macro_mutation_witness :
    importSheet 7 "S2" skipGrid emptyStore =
      some (macroUpsertRec 7 (sheetMacroFields "S2" skipGrid) emptyStore) ∧
    (macroUpsertRec 7 (sheetMacroFields "S2" skipGrid) emptyStore).macros ≠ emptyStore.macros :=
  ⟨(c9_skip_path_macro_mutation 7 "S2" skipGrid emptyStore (by decide) (by decide)).1,
   by decide⟩

lemma importRows_none_of_blank_prefix (now : Nat) (macroCode : String) (macroId : Nat) :
    ∀ (rows : List RowData) (i : Nat) (tasks : List TaskT) (cnt : Nat) (s : Store),
      ∀ (hi : i < rows.length), rows[i].tContent ≠ "" →
      (∀ j, j ≤ i → ∀ (hj : j < rows.length), rows[j].pTitle = "") →
      importRows now macroCode macroId rows none tasks cnt s = none := by
  intro rows
  induction rows with
  | nil => intro i tasks cnt s hi; simp at hi
  | cons r rest ih =>
    intro i tasks cnt s hi htask hempty
    have hr0 : r.pTitle = "" := by
      have := hempty 0 (by omega) (by simp)
      simpa using this
    rw [importRows]
    have hcond : (r.pTitle != "" && Option.all (fun c => c.title != r.pTitle)
        (none : Option CurProc)) = false := by
      rw [hr0]; rfl
    rw [hcond]
    simp only [Bool.false_eq_true, if_false]
    by_cases ht : r.tContent = ""
    · have hne : (r.tContent != "") = false := by rw [ht]; rfl
      rw [hne]
      simp only [Bool.false_eq_true, if_false]
      obtain ⟨k, rfl⟩ : ∃ k, i = k + 1 := by
        cases i with
        | zero => exact absurd (by simpa using htask) (by simp [ht])
        | succ k => exact ⟨k, rfl⟩
      refine ih k tasks cnt s (by simpa using hi) (by simpa using htask) ?_
      intro j hj hjl
      have := hempty (j + 1) (by omega) (by simpa using hjl)
      simpa using this
    · have hne : (r.tContent != "") = true := by
        simpa using ht
      rw [hne]
      rfl

/-- C10: the per-row `try/except` protects only the four cell reads;
the task-append step dereferences `current_process_doc` outside it.  On
any sheet where some data row has a non-empty tasks cell before any row
has opened a process group (all process-title cells up to it empty),
the row loop hits the uncaught `TypeError` of line 318 — modelled
`none` — and the run aborts instead of skipping the row. -/
theorem c10_task_before_group_aborts (now : Nat) (macroCode : String) (macroId : Nat)
    (rows : List RowData) (s : Store) (i : Nat) (hi : i < rows.length)
    (htask : rows[i].tContent ≠ "")
    (hempty : ∀ j, j ≤ i → ∀ (hj : j < rows.length), rows[j].pTitle = "") :
    importRows now macroCode macroId rows none [] 0 s = none :=
  importRows_none_of_blank_prefix now macroCode macroId rows i [] 0 s hi htask hempty

/-- A sheet whose first data row carries a task with no process title. -/
def orphanTaskGrid : List (List Cell) :=
  [[some "Macro 01: X", none, none, none, none],
   [none, none, none, none, none],
   [some "Description Détaillée", some "Process", some "Description du process",
    some "Identification des tâches", some "Directions concernées"],
   [none, none, none, some "orphan task", none]]

theorem c10_task_before_group_aborts_witness :
    importRows 0 "Macro01" 0 [⟨"", "", "orphan task", ""⟩] none [] 0 emptyStore = none ∧
    importSheet 0 "S1" orphanTaskGrid emptyStore = none :=
  ⟨c10_task_before_group_aborts 0 "Macro01" 0 [⟨"", "", "orphan task", ""⟩] emptyStore 0
    (by decide) (by decide) (by decide),
   by decide⟩

/-! ## Spec-side row grouping (for C1) -/

/-- Spec-side segmentation, open-group state: given the currently open
title `t`, return the rows continuing the current group and the
segments of the later groups (each starting at its opening row: a row
whose title cell is non-empty and differs from the open title). -/
def segSplit (t : String) : List RowData → List RowData × List (List RowData)
  | [] => ([], [])
  | r :: rs =>
    if r.pTitle ≠ "" ∧ t ≠ r.pTitle then
      ([], (r :: (segSplit r.pTitle rs).1) :: (segSplit r.pTitle rs).2)
    else
      ((r :: (segSplit t rs).1), (segSplit t rs).2)

/-- Spec-side segmentation with no group open yet: rows before the
first non-empty title belong to no group. -/
def segments : List RowData → List (List RowData)
  | [] => []
  | r :: rs =>
    if r.pTitle ≠ "" then (r :: (segSplit r.pTitle rs).1) :: (segSplit r.pTitle rs).2
    else segments rs

/-- The non-empty task cells of a segment, in row order. -/
def taskCells (seg : List RowData) : List String :=
  (seg.map RowData.tContent).filter (fun c => c ≠ "")

/-- The task records a group accumulates for its task cells, starting
after `start` already-recorded tasks. -/
def buildTasks (pcode : String) : Nat → List String → List TaskT
  | _, [] => []
  | start, c :: cells =>
    ⟨pcode ++ "_T" ++ Nat.repr (start + 1), c, start + 1⟩ :: buildTasks pcode (start + 1) cells

/-- The expected flush record of the `k`-th group (1-based) of a sheet. -/
def mkGroup (mc : String) (k : Nat) (seg : List RowData) : ProcGroup :=
  ⟨(seg.headD ⟨"", "", "", ""⟩).pTitle, mc ++ "_P" ++ Nat.repr k,
   buildTasks (mc ++ "_P" ++ Nat.repr k) 0 (taskCells seg)⟩

/-- The expected flush records of consecutive segments, numbering from
`k`. -/
def mkGroups (mc : String) : Nat → List (List RowData) → List ProcGroup
  | _, [] => []
  | k, seg :: segs => mkGroup mc k seg :: mkGroups mc (k + 1) segs

lemma buildTasks_length (pcode : String) :
    ∀ (cells : List String) (start : Nat), (buildTasks pcode start cells).length = cells.length := by
  intro cells
  induction cells with
  | nil => intro start; rfl
  | cons c cells ih => intro start; simp [buildTasks, ih]

lemma buildTasks_orders (pcode : String) :
    ∀ (cells : List String) (start : Nat),
      (buildTasks pcode start cells).map (fun tk => tk.order) =
        List.range' (start + 1) cells.length := by
  intro cells
  induction cells with
  | nil => intro start; rfl
  | cons c cells ih =>
    intro start
    rw [buildTasks, List.map_cons, ih (start + 1), List.length_cons, List.range'_succ]

lemma buildTasks_codes (pcode : String) :
    ∀ (cells : List String) (start : Nat) (tk : TaskT), tk ∈ buildTasks pcode start cells →
      tk.code = pcode ++ "_T" ++ Nat.repr tk.order := by
  intro cells
  induction cells with
  | nil => intro start tk h; cases h
  | cons c cells ih =>
    intro start tk h
    rw [buildTasks] at h
    cases h with
    | head => rfl
    | tail _ hm => exact ih (start + 1) tk hm

lemma mkGroups_mem (mc : String) :
    ∀ (segs : List (List RowData)) (k : Nat) (g : ProcGroup), g ∈ mkGroups mc k segs →
      ∃ k' seg, seg ∈ segs ∧ g = mkGroup mc k' seg := by
  intro segs
  induction segs with
  | nil => intro k g h; cases h
  | cons seg segs ih =>
    intro k g h
    rw [mkGroups] at h
    cases h with
    | head => exact ⟨k, seg, List.mem_cons_self _ _, rfl⟩
    | tail _ hm =>
      obtain ⟨k', seg', hmem, hg⟩ := ih (k + 1) g hm
      exact ⟨k', seg', List.mem_cons_of_mem _ hmem, hg⟩

lemma docUpsertRec_find (now : Nat) (f : DocFields) (s : Store) :
    ∃ d, (docUpsertRec now f s).documents.find?
        (fun d => d.title == f.title && d.macro_id == f.macro_id) = some d ∧
      d.process_code = f.process_code := by
  unfold docUpsertRec
  split
  next ds hds =>
    obtain ⟨x, _, h2⟩ := replFirst_find? (fun d => d.title == f.title && d.macro_id == f.macro_id)
      (fun d => { d with macro_id := f.macro_id, process_code := f.process_code,
                         title := f.title, description := f.description,
                         stakeholders := f.stakeholders, tasks := [], status := "draft",
                         version := "1.0", is_active := true,
                         implicated_actors := f.stakeholders,
                         created_at := now, updated_at := now })
      (fun x _ => by simp) s.documents ds hds
    exact ⟨_, h2, rfl⟩
  next hds =>
    refine ⟨⟨s.nextId, f.macro_id, f.process_code, f.title, f.description, f.stakeholders,
      [], "draft", "1.0", true, f.stakeholders, now, now⟩, ?_, rfl⟩
    rw [List.find?_append, (replFirst_none_iff _ _ _).mp hds]
    simp [List.find?_cons_of_pos]

lemma importRows_trace_some (now : Nat) (mc : String) (mid : Nat) :
    ∀ (rows : List RowData) (t pcode : String) (docId : Nat) (tasks : List TaskT)
      (cnt : Nat) (s s' : Store) (tr : List ProcGroup),
      importRows now mc mid rows (some ⟨t, pcode, docId⟩) tasks cnt s = some (s', tr) →
      tr = ⟨t, pcode, tasks ++ buildTasks pcode tasks.length (taskCells (segSplit t rows).1)⟩ ::
        mkGroups mc (cnt + 1) (segSplit t rows).2 := by
  intro rows
  induction rows with
  | nil =>
    intro t pcode docId tasks cnt s s' tr h
    rw [importRows] at h
    dsimp only [flushCur] at h
    rw [segSplit]
    have htr : tr = [⟨t, pcode, tasks⟩] := (Prod.mk.injEq _ _ _ _ |>.mp (Option.some_inj.mp h)).2.symm
    rw [htr]
    simp [taskCells, buildTasks, mkGroups]
  | cons r rest ih =>
    intro t pcode docId tasks cnt s s' tr h
    rw [importRows] at h
    dsimp only [flushCur, Option.all] at h
    by_cases hob : (r.pTitle != "" && t != r.pTitle) = true
    · obtain ⟨hob1, hob2⟩ : r.pTitle ≠ "" ∧ t ≠ r.pTitle := by
        simpa [bne_iff_ne] using hob
      rw [if_pos hob] at h
      cases hps : processStakeholders now (resolveCandidates r.dContent)
          (setTasksById docId tasks s) with
      | none => rw [hps] at h; cases h
      | some pr =>
        obtain ⟨s2, stks⟩ := pr
        rw [hps] at h
        dsimp only at h
        obtain ⟨d, hfind, hpc⟩ := docUpsertRec_find now
          ⟨mid, mc ++ "_P" ++ Nat.repr (cnt + 1), r.pTitle, r.pDesc, stks⟩ s2
        dsimp only at hfind
        rw [hfind] at h
        dsimp only at h
        rw [segSplit, if_pos ⟨hob1, hob2⟩]
        simp only [taskCells, mkGroups, List.map_nil, List.filter_nil, buildTasks,
          List.append_nil]
        by_cases htc : (r.tContent != "") = true
        · rw [if_pos htc] at h
          obtain ⟨q, hq, heq⟩ := Option.map_eq_some'.mp h
          obtain ⟨q1, q2⟩ := q
          have htr : tr = ⟨t, pcode, tasks⟩ :: q2 := by
            have := (Prod.mk.injEq _ _ _ _).mp heq
            rw [← this.2]; rfl
          rw [htr, ih r.pTitle d.process_code d.id _ (cnt + 1) _ q1 q2 hq]
          congr 1
      
          rw [mkGroup]
          dsimp only [taskCells]
          rw [hpc, List.headD_cons, List.map_cons, List.filter_cons,
            if_pos (by simpa [bne_iff_ne] using htc), buildTasks]
          rfl
        · rw [if_neg htc] at h
          obtain ⟨q, hq, heq⟩ := Option.map_eq_some'.mp h
          obtain ⟨q1, q2⟩ := q
          have htr : tr = ⟨t, pcode, tasks⟩ :: q2 := by
            have := (Prod.mk.injEq _ _ _ _).mp heq
            rw [← this.2]; rfl
          rw [htr, ih r.pTitle d.process_code d.id _ (cnt + 1) _ q1 q2 hq]
          congr 1
          rw [mkGroup]
          dsimp only [taskCells]
          rw [hpc, List.headD_cons, List.map_cons, List.filter_cons,
            if_neg (by simpa [bne_iff_ne] using htc)]
          rfl
    · rw [if_neg hob] at h
      have hnob : ¬ (r.pTitle ≠ "" ∧ t ≠ r.pTitle) := by
        intro hc
        exact hob (by simp [bne_iff_ne, hc.1, hc.2])
      rw [segSplit, if_neg hnob]
      by_cases htc : (r.tContent != "") = true
      · rw [if_pos htc] at h
        rw [ih t pcode docId _ cnt _ s' tr h]
        dsimp only [taskCells]
        rw [List.map_cons, List.filter_cons, if_pos (by simpa [bne_iff_ne] using htc),
          buildTasks]
        congr 2
        rw [List.length_append]
        dsimp only [List.length_cons, List.length_nil]
        rw [List.append_assoc]
        rfl
      · rw [if_neg htc] at h
        rw [ih t pcode docId _ cnt _ s' tr h]
        dsimp only [taskCells]
        rw [List.map_cons, List.filter_cons, if_neg (by simpa [bne_iff_ne] using htc)]

lemma importRows_trace_none (now : Nat) (mc : String) (mid : Nat) :
    ∀ (rows : List RowData) (tasks : List TaskT) (cnt : Nat) (s s' : Store)
      (tr : List ProcGroup),
      importRows now mc mid rows none tasks cnt s = some (s', tr) →
      tr = mkGroups mc (cnt + 1) (segments rows) := by
  intro rows
  induction rows with
  | nil =>
    intro tasks cnt s s' tr h
    rw [importRows] at h
    dsimp only [flushCur] at h
    have := (Prod.mk.injEq _ _ _ _ |>.mp (Option.some_inj.mp h)).2
    rw [← this]
    rfl
  | cons r rest ih =>
    intro tasks cnt s s' tr h
    rw [importRows] at h
    dsimp only [flushCur, Option.all] at h
    by_cases hob : (r.pTitle != "" && true) = true
    · have hpt : r.pTitle ≠ "" := by simpa [bne_iff_ne] using hob
      rw [if_pos hob] at h
      cases hps : processStakeholders now (resolveCandidates r.dContent) s with
      | none => rw [hps] at h; cases h
      | some pr =>
        obtain ⟨s2, stks⟩ := pr
        rw [hps] at h
        dsimp only at h
        obtain ⟨d, hfind, hpc⟩ := docUpsertRec_find now
          ⟨mid, mc ++ "_P" ++ Nat.repr (cnt + 1), r.pTitle, r.pDesc, stks⟩ s2
        dsimp only at hfind
        rw [hfind] at h
        dsimp only at h
        rw [segments, if_pos hpt, mkGroups]
        by_cases htc : (r.tContent != "") = true
        · rw [if_pos htc] at h
          obtain ⟨q, hq, heq⟩ := Option.map_eq_some'.mp h
          obtain ⟨q1, q2⟩ := q
          have htr : tr = q2 := by
            have := (Prod.mk.injEq _ _ _ _).mp heq
            rw [← this.2]; rfl
          rw [htr, importRows_trace_some now mc mid rest r.pTitle d.process_code d.id _
            (cnt + 1) _ q1 q2 hq]
          congr 1
          rw [mkGroup]
          dsimp only [taskCells]
          rw [hpc, List.headD_cons, List.map_cons, List.filter_cons,
            if_pos (by simpa [bne_iff_ne] using htc), buildTasks]
          rfl
        · rw [if_neg htc] at h
          obtain ⟨q, hq, heq⟩ := Option.map_eq_some'.mp h
          obtain ⟨q1, q2⟩ := q
          have htr : tr = q2 := by
            have := (Prod.mk.injEq _ _ _ _).mp heq
            rw [← this.2]; rfl
          rw [htr, importRows_trace_some now mc mid rest r.pTitle d.process_code d.id _
            (cnt + 1) _ q1 q2 hq]
          congr 1
          rw [mkGroup]
          dsimp only [taskCells]
          rw [hpc, List.headD_cons, List.map_cons, List.filter_cons,
            if_neg (by simpa [bne_iff_ne] using htc)]
          rfl
    · have hpt : r.pTitle = "" := by
        by_contra hc
        exact hob (by simp [bne_iff_ne, hc])
      rw [if_neg hob] at h
      by_cases htc : (r.tContent != "") = true
      · rw [if_pos htc] at h; cases h
      · rw [if_neg htc] at h
        rw [segments, if_neg (by simp [hpt])]
        exact ih tasks cnt s s' tr h

lemma mkGroups_lengths (mc : String) :
    ∀ (segs : List (List RowData)) (k : Nat),
      (mkGroups mc k segs).map (fun g => g.tasks.length) =
        segs.map (fun seg => (taskCells seg).length) := by
  intro segs
  induction segs with
  | nil => intro k; rfl
  | cons seg segs ih =>
    intro k
    rw [mkGroups, List.map_cons, List.map_cons, ih (k + 1), mkGroup]
    dsimp only
    rw [buildTasks_length]

/-- C1: on any successful run of the data-row loop (started with no
open group), the flush trace equals the spec-side segmentation: groups
open exactly at rows whose non-empty title differs from the open
group's title; each group records one task per non-empty tasks cell in
its segment (opening row included, up to the next opening row), with
orders exactly 1..n and task codes `<process_code>_T<order>`. -/
theorem c1_row_grouping_and_tasks (now : Nat) (macroCode : String) (macroId : Nat)
    (rows : List RowData) (s s' : Store) (tr : List ProcGroup)
    (h : importRows now macroCode macroId rows none [] 0 s = some (s', tr)) :
    tr = mkGroups macroCode 1 (segments rows) ∧
    tr.map (fun g => g.tasks.length) =
      (segments rows).map (fun seg => (taskCells seg).length) ∧
    (∀ g ∈ tr, g.tasks.map (fun tk => tk.order) = List.range' 1 g.tasks.length) ∧
    (∀ g ∈ tr, ∀ tk ∈ g.tasks, tk.code = g.processCode ++ "_T" ++ Nat.repr tk.order) := by
  have h1 : tr = mkGroups macroCode 1 (segments rows) :=
    importRows_trace_none now macroCode macroId rows [] 0 s s' tr h
  refine ⟨h1, by rw [h1, mkGroups_lengths], ?_, ?_⟩
  · intro g hg
    rw [h1] at hg
    obtain ⟨k', seg, _, hgeq⟩ := mkGroups_mem macroCode (segments rows) 1 g hg
    rw [hgeq, mkGroup]
    dsimp only
    rw [buildTasks_orders, buildTasks_length]
  · intro g hg tk htk
    rw [h1] at hg
    obtain ⟨k', seg, _, hgeq⟩ := mkGroups_mem macroCode (segments rows) 1 g hg
    rw [hgeq] at htk ⊢
    exact buildTasks_codes _ (taskCells seg) 0 tk htk

/-- Concrete data rows: two groups, the first continued by a merged
(empty-title) row. -/
def c1rows : List RowData :=
  [⟨"Process Alpha", "Desc A", "Task one", "Direction Network Engineering, IT"⟩,
   ⟨"", "", "Task two", ""⟩,
   ⟨"Process Beta", "Desc B", "Task x", "IT"⟩]

theorem c1_row_grouping_and_tasks_witness :
    ∃ p, importRows 5 "Macro01" 7 c1rows none [] 0 emptyStore = some p ∧
      p.2 = mkGroups "Macro01" 1 (segments c1rows) ∧
      ∀ g ∈ p.2, g.tasks.map (fun tk => tk.order) = List.range' 1 g.tasks.length := by
  obtain ⟨p, hp⟩ : ∃ p, importRows 5 "Macro01" 7 c1rows none [] 0 emptyStore = some p :=
    ⟨_, rfl⟩
  have hth := c1_row_grouping_and_tasks 5 "Macro01" 7 c1rows emptyStore p.1 p.2 (by rw [hp])
  exact ⟨p, hp, hth.1, hth.2.2.1⟩

/-! ## Re-run simulation infrastructure (for C5) -/

/-- Restamp a document with a run's timestamps: exactly the effect a
full-replace rewrite with identical data has on an existing record. -/
def stampD (n : Nat) (d : DocT) : DocT := { d with created_at := n, updated_at := n }

/-- Restamp a macro record with a run's timestamps. -/
def stampM (n : Nat) (m : MacroT) : MacroT := { m with created_at := n, updated_at := n }

/-- How a store evolves along a run of the importer: reference
collections only grow (departments and job positions are append-only),
and macros/documents keep their length order, identity keys and ids at
every existing position. -/
structure Evolve (x y : Store) : Prop where
  dept : x.departments <+: y.departments
  jp : x.jobPositions <+: y.jobPositions
  macLen : x.macros.length ≤ y.macros.length
  macKey : ∀ i (h1 : i < x.macros.length) (h2 : i < y.macros.length),
      y.macros[i].code = x.macros[i].code ∧ y.macros[i].id = x.macros[i].id
  docLen : x.documents.length ≤ y.documents.length
  docKey : ∀ i (h1 : i < x.documents.length) (h2 : i < y.documents.length),
      y.documents[i].title = x.documents[i].title ∧
        y.documents[i].macro_id = x.documents[i].macro_id ∧
        y.documents[i].id = x.documents[i].id

lemma evolve_refl (s : Store) : Evolve s s :=
  ⟨List.prefix_refl _, List.prefix_refl _, le_refl _, fun _ _ _ => ⟨rfl, rfl⟩,
   le_refl _, fun _ _ _ => ⟨rfl, rfl, rfl⟩⟩

lemma evolve_trans {x y z : Store} (h1 : Evolve x y) (h2 : Evolve y z) : Evolve x z := by
  refine ⟨h1.dept.trans h2.dept, h1.jp.trans h2.jp, le_trans h1.macLen h2.macLen, ?_,
    le_trans h1.docLen h2.docLen, ?_⟩
  · intro i hx hz
    have hy : i < y.macros.length := lt_of_lt_of_le hx h1.macLen
    obtain ⟨hc1, hi1⟩ := h1.macKey i hx hy
    obtain ⟨hc2, hi2⟩ := h2.macKey i hy hz
    exact ⟨hc2.trans hc1, hi2.trans hi1⟩
  · intro i hx hz
    have hy : i < y.documents.length := lt_of_lt_of_le hx h1.docLen
    obtain ⟨ht1, hm1, hi1⟩ := h1.docKey i hx hy
    obtain ⟨ht2, hm2, hi2⟩ := h2.docKey i hy hz
    exact ⟨ht2.trans ht1, hm2.trans hm1, hi2.trans hi1⟩

lemma replFirst_length (p : α → Bool) (f : α → α) :
    ∀ (l l' : List α), replFirst p f l = some l' → l'.length = l.length := by
  intro l
  induction l with
  | nil => intro l' h; cases h
  | cons a as ih =>
    intro l' h
    rw [replFirst] at h
    by_cases hpa : p a
    · rw [if_pos hpa] at h
      rw [← Option.some_inj.mp h]
      simp
    · rw [if_neg hpa] at h
      cases hre : replFirst p f as with
      | none => rw [hre] at h; cases h
      | some as' =>
        rw [hre] at h
        rw [← Option.some_inj.mp h]
        simp [ih as' hre]

lemma replFirst_getElem (p : α → Bool) (f : α → α) :
    ∀ (l l' : List α), replFirst p f l = some l' →
      ∀ i (h : i < l.length) (h' : i < l'.length),
        l'[i] = l[i] ∨ (p l[i] = true ∧ l'[i] = f l[i]) := by
  intro l
  induction l with
  | nil => intro l' h; cases h
  | cons a as ih =>
    intro l' h i hi hi'
    rw [replFirst] at h
    by_cases hpa : p a
    · rw [if_pos hpa] at h
      obtain rfl := Option.some_inj.mp h
      cases i with
      | zero => exact Or.inr ⟨hpa, rfl⟩
      | succ k => exact Or.inl rfl
    · rw [if_neg hpa] at h
      cases hre : replFirst p f as with
      | none => rw [hre] at h; cases h
      | some as' =>
        rw [hre] at h
        obtain rfl := Option.some_inj.mp h
        cases i with
        | zero => exact Or.inl rfl
        | succ k =>
          have hk : k < as.length := by simpa using hi
          have hk' : k < as'.length := by simpa using hi'
          simpa using ih as' hre k hk hk'

lemma replFirst_append (p : α → Bool) (f : α → α) :
    ∀ (l₁ l₂ : List α),
      replFirst p f (l₁ ++ l₂) =
        (match replFirst p f l₁ with
         | some l' => some (l' ++ l₂)
         | none => (replFirst p f l₂).map (fun t => l₁ ++ t)) := by
  intro l₁ l₂
  induction l₁ with
  | nil =>
    rw [List.nil_append, replFirst]
    cases replFirst p f l₂ <;> rfl
  | cons a as ih =>
    rw [List.cons_append, replFirst, replFirst]
    by_cases hpa : p a
    · rw [if_pos hpa, if_pos hpa]
      rfl
    · rw [if_neg hpa, if_neg hpa, ih]
      cases replFirst p f as with
      | some as' => rfl
      | none =>
        cases replFirst p f l₂ <;> simp

lemma map_replFirst (p : α → Bool) (g f₁ f₂ : α → α)
    (hpg : ∀ x, p (g x) = p x) (hfg : ∀ x, p x = true → f₂ (g x) = g (f₁ x)) :
    ∀ (l : List α), replFirst p f₂ (l.map g) = (replFirst p f₁ l).map (List.map g) := by
  intro l
  induction l with
  | nil => rfl
  | cons a as ih =>
    rw [List.map_cons, replFirst, replFirst, hpg]
    by_cases hpa : p a
    · rw [if_pos hpa, if_pos hpa, hfg a hpa]
      rfl
    · rw [if_neg hpa, if_neg hpa, ih]
      cases replFirst p f₁ as <;> rfl

lemma find?_of_prefix (p : α → Bool) (l₁ l₂ : List α) (hp : l₁ <+: l₂) (x : α)
    (h : l₁.find? p = some x) : l₂.find? p = some x := by
  obtain ⟨t, rfl⟩ := hp
  rw [List.find?_append, h]
  rfl

lemma evolve_deptUpsert (now : Nat) (name code : String) (s : Store) :
    Evolve s (deptUpsertIfAbsent now name code s) := by
  unfold deptUpsertIfAbsent
  split
  · exact evolve_refl s
  · exact ⟨⟨_, rfl⟩, List.prefix_refl _, le_refl _, fun _ _ _ => ⟨rfl, rfl⟩, le_refl _,
      fun _ _ _ => ⟨rfl, rfl, rfl⟩⟩

lemma evolve_jobPosUpsert (now : Nat) (title : String) (deptId : Nat) (code : String)
    (s : Store) : Evolve s (jobPosUpsertIfAbsent now title deptId code s) := by
  unfold jobPosUpsertIfAbsent
  split
  · exact evolve_refl s
  · exact ⟨List.prefix_refl _, ⟨_, rfl⟩, le_refl _, fun _ _ _ => ⟨rfl, rfl⟩, le_refl _,
      fun _ _ _ => ⟨rfl, rfl, rfl⟩⟩

lemma evolve_macroUpsertRec (now : Nat) (f : MacroFields) (s : Store) :
    Evolve s (macroUpsertRec now f s) := by
  unfold macroUpsertRec
  split
  next ms hms =>
    have hlen := replFirst_length _ _ _ _ hms
    refine ⟨List.prefix_refl _, List.prefix_refl _, by simp [hlen], ?_, le_refl _,
      fun _ _ _ => ⟨rfl, rfl, rfl⟩⟩
    intro i h1 h2
    have h2' : i < ms.length := by simpa using h2
    show ms[i].code = s.macros[i].code ∧ ms[i].id = s.macros[i].id
    rcases replFirst_getElem _ _ _ _ hms i h1 h2' with heq | ⟨hp, heq⟩
    · rw [heq]
      exact ⟨rfl, rfl⟩
    · rw [heq]
      have : s.macros[i].code = f.code := by simpa using hp
      exact ⟨this.symm, rfl⟩
  next =>
    refine ⟨List.prefix_refl _, List.prefix_refl _, by simp, ?_, le_refl _,
      fun _ _ _ => ⟨rfl, rfl, rfl⟩⟩
    intro i h1 h2
    show (s.macros ++ _)[i].code = s.macros[i].code ∧ (s.macros ++ _)[i].id = s.macros[i].id
    rw [List.getElem_append_left h1]
    exact ⟨rfl, rfl⟩

lemma evolve_docUpsertRec (now : Nat) (f : DocFields) (s : Store) :
    Evolve s (docUpsertRec now f s) := by
  unfold docUpsertRec
  split
  next ds hds =>
    have hlen := replFirst_length _ _ _ _ hds
    refine ⟨List.prefix_refl _, List.prefix_refl _, le_refl _,
      fun _ _ _ => ⟨rfl, rfl⟩, by simp [hlen], ?_⟩
    intro i h1 h2
    have h2' : i < ds.length := by simpa using h2
    show ds[i].title = s.documents[i].title ∧ ds[i].macro_id = s.documents[i].macro_id ∧
      ds[i].id = s.documents[i].id
    rcases replFirst_getElem _ _ _ _ hds i h1 h2' with heq | ⟨hp, heq⟩
    · rw [heq]
      exact ⟨rfl, rfl, rfl⟩
    · rw [heq]
      have hp2 : s.documents[i].title = f.title ∧ s.documents[i].macro_id = f.macro_id := by
        simpa using hp
      exact ⟨hp2.1.symm, hp2.2.symm, rfl⟩
  next =>
    refine ⟨List.prefix_refl _, List.prefix_refl _, le_refl _,
      fun _ _ _ => ⟨rfl, rfl⟩, by simp, ?_⟩
    intro i h1 h2
    show (s.documents ++ _)[i].title = s.documents[i].title ∧
      (s.documents ++ _)[i].macro_id = s.documents[i].macro_id ∧
      (s.documents ++ _)[i].id = s.documents[i].id
    rw [List.getElem_append_left h1]
    exact ⟨rfl, rfl, rfl⟩

lemma evolve_setTasksById (docId : Nat) (tasks : List TaskT) (s : Store) :
    Evolve s (setTasksById docId tasks s) := by
  unfold setTasksById
  split
  next ds hds =>
    have hlen := replFirst_length _ _ _ _ hds
    refine ⟨List.prefix_refl _, List.prefix_refl _, le_refl _,
      fun _ _ _ => ⟨rfl, rfl⟩, by simp [hlen], ?_⟩
    intro i h1 h2
    have h2' : i < ds.length := by simpa using h2
    show ds[i].title = s.documents[i].title ∧ ds[i].macro_id = s.documents[i].macro_id ∧
      ds[i].id = s.documents[i].id
    rcases replFirst_getElem _ _ _ _ hds i h1 h2' with heq | ⟨hp, heq⟩
    · rw [heq]
      exact ⟨rfl, rfl, rfl⟩
    · rw [heq]
      exact ⟨rfl, rfl, rfl⟩
  next => exact evolve_refl s

lemma evolve_flushCur (cur : Option CurProc) (tasks : List TaskT) (s : Store) :
    Evolve s (flushCur cur tasks s).1 := by
  cases cur with
  | none => exact evolve_refl s
  | some c => exact evolve_setTasksById c.docId tasks s

lemma evolve_stakeholderStep (now : Nat) (s s' : Store) (name base : String)
    (h : stakeholderStep now s name base = some s') : Evolve s s' := by
  unfold stakeholderStep at h
  cases hrc : resolveCode s.departments name base with
  | none => rw [hrc] at h; cases h
  | some code =>
    rw [hrc] at h
    dsimp only at h
    cases hfd : (deptUpsertIfAbsent now name code s).departments.find?
        (fun d => d.name == name) with
    | none => rw [hfd] at h; cases h
    | some dept =>
      rw [hfd] at h
      dsimp only at h
      obtain rfl := Option.some_inj.mp h
      exact evolve_trans (evolve_deptUpsert now name code s)
        (evolve_jobPosUpsert now name dept.id (code ++ "-H") _)

lemma evolve_processStakeholders (now : Nat) :
    ∀ (cands : List (String × String)) (s s' : Store) (ns : List String),
      processStakeholders now cands s = some (s', ns) → Evolve s s' := by
  intro cands
  induction cands with
  | nil =>
    intro s s' ns h
    rw [processStakeholders] at h
    obtain ⟨h1, _⟩ := Prod.mk.injEq _ _ _ _ |>.mp (Option.some_inj.mp h)
    rw [← h1]
    exact evolve_refl s
  | cons c rest ih =>
    obtain ⟨name, base⟩ := c
    intro s s' ns h
    rw [processStakeholders] at h
    cases hst : stakeholderStep now s name base with
    | none => rw [hst] at h; cases h
    | some s1 =>
      rw [hst] at h
      dsimp only at h
      cases hre : processStakeholders now rest s1 with
      | none => rw [hre] at h; cases h
      | some pr =>
        obtain ⟨s2, ns2⟩ := pr
        rw [hre] at h
        dsimp only at h
        obtain ⟨h1, _⟩ := Prod.mk.injEq _ _ _ _ |>.mp (Option.some_inj.mp h)
        rw [← h1]
        exact evolve_trans (evolve_stakeholderStep now s s1 name base hst) (ih s1 s2 ns2 hre)

lemma evolve_importRows (now : Nat) (mc : String) (mid : Nat) :
    ∀ (rows : List RowData) (cur : Option CurProc) (tasks : List TaskT) (cnt : Nat)
      (s s' : Store) (tr : List ProcGroup),
      importRows now mc mid rows cur tasks cnt s = some (s', tr) → Evolve s s' := by
  intro rows
  induction rows with
  | nil =>
    intro cur tasks cnt s s' tr h
    rw [importRows] at h
    obtain ⟨h1, _⟩ := Prod.mk.injEq _ _ _ _ |>.mp (Option.some_inj.mp h)
    rw [← h1]
    exact evolve_flushCur cur tasks s
  | cons r rest ih =>
    intro cur tasks cnt s s' tr h
    rw [importRows.eq_def] at h
    dsimp only at h
    by_cases hob : (r.pTitle != "" && cur.all (fun c => c.title != r.pTitle)) = true
    · rw [if_pos hob] at h
      cases hps : processStakeholders now (resolveCandidates r.dContent)
          (flushCur cur tasks s).1 with
      | none => rw [hps] at h; cases h
      | some pr =>
        obtain ⟨s2, stks⟩ := pr
        rw [hps] at h
        dsimp only at h
        cases hfd : (docUpsertRec now ⟨mid, mc ++ "_P" ++ Nat.repr (cnt + 1), r.pTitle,
            r.pDesc, stks⟩ s2).documents.find?
            (fun d => d.title == r.pTitle && d.macro_id == mid) with
        | none => rw [hfd] at h; cases h
        | some d =>
          rw [hfd] at h
          dsimp only at h
          have hbase : Evolve s (docUpsertRec now ⟨mid, mc ++ "_P" ++ Nat.repr (cnt + 1),
              r.pTitle, r.pDesc, stks⟩ s2) :=
            evolve_trans (evolve_flushCur cur tasks s)
              (evolve_trans (evolve_processStakeholders now _ _ s2 stks hps)
                (evolve_docUpsertRec now _ s2))
          by_cases htc : (r.tContent != "") = true
          · rw [if_pos htc] at h
            obtain ⟨q, hq, heq⟩ := Option.map_eq_some'.mp h
            obtain ⟨q1, q2⟩ := q
            obtain ⟨h1, _⟩ := Prod.mk.injEq _ _ _ _ |>.mp heq
            rw [← h1]
            exact evolve_trans hbase (ih _ _ _ _ q1 q2 hq)
          · rw [if_neg htc] at h
            obtain ⟨q, hq, heq⟩ := Option.map_eq_some'.mp h
            obtain ⟨q1, q2⟩ := q
            obtain ⟨h1, _⟩ := Prod.mk.injEq _ _ _ _ |>.mp heq
            rw [← h1]
            exact evolve_trans hbase (ih _ _ _ _ q1 q2 hq)
    · rw [if_neg hob] at h
      by_cases htc : (r.tContent != "") = true
      · rw [if_pos htc] at h
        cases cur with
        | none => simp at h
        | some c =>
          dsimp only at h
          exact ih _ _ _ s s' tr h
      · rw [if_neg htc] at h
        exact ih _ _ _ s s' tr h

lemma evolve_importSheet (now : Nat) (sheetName : String) (g : List (List Cell))
    (s s' : Store) (h : importSheet now sheetName g s = some s') : Evolve s s' := by
  unfold importSheet at h
  cases hc0 : iloc2 g 0 0 with
  | none => rw [hc0] at h; cases h
  | some c0 =>
    rw [hc0] at h
    dsimp only at h
    cases hds : (if 3 < g.length then (iloc2 g 3 0).map cleanText else some "") with
    | none => rw [hds] at h; cases h
    | some mdesc =>
      rw [hds] at h
      dsimp only at h
      cases hfm : (macroUpsertRec now (macroFieldsOf (cleanText c0) sheetName mdesc) s).macros.find?
          (fun m => m.code == (macroFieldsOf (cleanText c0) sheetName mdesc).code) with
      | none => rw [hfm] at h; cases h
      | some mrec =>
        rw [hfm] at h
        dsimp only at h
        have hbase : Evolve s (macroUpsertRec now
            (macroFieldsOf (cleanText c0) sheetName mdesc) s) :=
          evolve_macroUpsertRec now _ s
        cases hhd : findHeaderRow g with
        | none => rw [hhd] at h; cases h
        | some o =>
          rw [hhd] at h
          cases o with
          | none =>
            obtain rfl := Option.some_inj.mp h
            exact hbase
          | some hidx =>
            dsimp only at h
            cases hir : importRows now (macroFieldsOf (cleanText c0) sheetName mdesc).code
                mrec.id ((g.drop (hidx + 1)).map (readRow (buildColMap (g[hidx]?.getD []))
                  (g.headD []).length)) none [] 0
                (macroUpsertRec now (macroFieldsOf (cleanText c0) sheetName mdesc) s) with
            | none => rw [hir] at h; cases h
            | some p =>
              rw [hir] at h
              dsimp only at h
              obtain rfl := Option.some_inj.mp h
              exact evolve_trans hbase (evolve_importRows now _ _ _ _ _ _ _ p.1 p.2
                (by rw [hir]))

lemma evolve_importData (now : Nat) :
    ∀ (w : Workbook) (s s' : Store), importData now w s = some s' → Evolve s s' := by
  intro w
  induction w with
  | nil =>
    intro s s' h
    rw [importData] at h
    obtain rfl := Option.some_inj.mp h
    exact evolve_refl s
  | cons sh rest ih =>
    obtain ⟨nm, g⟩ := sh
    intro s s' h
    rw [importData] at h
    cases hsh : importSheet now nm g s with
    | none => rw [hsh] at h; cases h
    | some s1 =>
      rw [hsh] at h
      dsimp only at h
      exact evolve_trans (evolve_importSheet now nm g s s1 hsh) (ih s1 s' h)

/-- Lockstep relation between a first run (state `a`, final store
`sfin`) and a second run over the same workbook (state `b`, stamping
`n₂`): reference collections already hold their final contents, and
macros/documents are the first run's records so far restamped, followed
by the first run's future records. -/
structure Sim (n₂ : Nat) (sfin a b : Store) : Prop where
  dept : b.departments = sfin.departments
  jp : b.jobPositions = sfin.jobPositions
  nid : b.nextId = sfin.nextId
  mac : b.macros = a.macros.map (stampM n₂) ++ sfin.macros.drop a.macros.length
  doc : b.documents = a.documents.map (stampD n₂) ++ sfin.documents.drop a.documents.length

lemma find?_map_pg (p : α → Bool) (g : α → α) (hpg : ∀ x, p (g x) = p x) :
    ∀ (l : List α), (l.map g).find? p = (l.find? p).map g := by
  intro l
  induction l with
  | nil => rfl
  | cons x xs ih =>
    rw [List.map_cons]
    by_cases hx : p x
    · rw [List.find?_cons_of_pos _ (by rw [hpg]; exact hx), List.find?_cons_of_pos _ hx]
      rfl
    · rw [List.find?_cons_of_neg _ (by rw [hpg]; simpa using hx),
        List.find?_cons_of_neg _ hx, ih]

lemma replFirst_isSome (p : α → Bool) (f : α → α) (l : List α)
    (h : ∃ x ∈ l, p x = true) : ∃ l', replFirst p f l = some l' := by
  cases hre : replFirst p f l with
  | some l' => exact ⟨l', rfl⟩
  | none =>
    obtain ⟨x, hx, hpx⟩ := h
    have := List.find?_eq_none.mp ((replFirst_none_iff p f l).mp hre) x hx
    rw [hpx] at this
    cases this rfl

lemma deptUpsert_frame (now : Nat) (name code : String) (s : Store) :
    (deptUpsertIfAbsent now name code s).macros = s.macros ∧
    (deptUpsertIfAbsent now name code s).documents = s.documents ∧
    (deptUpsertIfAbsent now name code s).jobPositions = s.jobPositions := by
  unfold deptUpsertIfAbsent
  split <;> exact ⟨rfl, rfl, rfl⟩

lemma jobPosUpsert_frame (now : Nat) (title : String) (deptId : Nat) (code : String)
    (s : Store) :
    (jobPosUpsertIfAbsent now title deptId code s).macros = s.macros ∧
    (jobPosUpsertIfAbsent now title deptId code s).documents = s.documents ∧
    (jobPosUpsertIfAbsent now title deptId code s).departments = s.departments := by
  unfold jobPosUpsertIfAbsent
  split <;> exact ⟨rfl, rfl, rfl⟩

lemma deptUpsert_noop (now : Nat) (name code : String) (b : Store)
    (hmem : ∃ d ∈ b.departments, d.name = name) :
    deptUpsertIfAbsent now name code b = b := by
  unfold deptUpsertIfAbsent
  rw [if_pos]
  obtain ⟨d, hd, hn⟩ := hmem
  exact List.any_eq_true.mpr ⟨d, hd, by simp [hn]⟩

lemma jobPosUpsert_noop (now : Nat) (title : String) (deptId : Nat) (code : String)
    (b : Store) (hmem : ∃ j ∈ b.jobPositions, j.title = title ∧ j.department_id = deptId) :
    jobPosUpsertIfAbsent now title deptId code b = b := by
  unfold jobPosUpsertIfAbsent
  rw [if_pos]
  obtain ⟨j, hj, hn1, hn2⟩ := hmem
  exact List.any_eq_true.mpr ⟨j, hj, by simp [hn1, hn2]⟩

lemma deptUpsert_mem (now : Nat) (name code : String) (s : Store) :
    ∃ d ∈ (deptUpsertIfAbsent now name code s).departments, d.name = name := by
  unfold deptUpsertIfAbsent
  split
  next hany =>
    obtain ⟨d, hd, hn⟩ := List.any_eq_true.mp hany
    exact ⟨d, hd, by simpa using hn⟩
  next =>
    exact ⟨⟨s.nextId, name, code, true, now, now⟩, by simp, rfl⟩

lemma jobPosUpsert_mem (now : Nat) (title : String) (deptId : Nat) (code : String)
    (s : Store) :
    ∃ j ∈ (jobPosUpsertIfAbsent now title deptId code s).jobPositions,
      j.title = title ∧ j.department_id = deptId := by
  unfold jobPosUpsertIfAbsent
  split
  next hany =>
    obtain ⟨j, hj, hn⟩ := List.any_eq_true.mp hany
    refine ⟨j, hj, ?_⟩
    simpa using hn
  next =>
    exact ⟨⟨s.nextId, title, deptId, code, true, now, now⟩, by simp, rfl, rfl⟩

lemma sim_setTasks (n₂ : Nat) (sfin a b : Store) (hsim : Sim n₂ sfin a b)
    (docId : Nat) (tasks : List TaskT)
    (hpres : ∃ d ∈ a.documents, d.id = docId) :
    Sim n₂ sfin (setTasksById docId tasks a) (setTasksById docId tasks b) := by
  obtain ⟨da, hda⟩ := replFirst_isSome (fun d => d.id == docId)
    (fun d => { d with tasks := tasks }) a.documents
    (by obtain ⟨d, hd, hid⟩ := hpres; exact ⟨d, hd, by simp [hid]⟩)
  have hmap : replFirst (fun d => d.id == docId) (fun d => { d with tasks := tasks })
      b.documents = some (da.map (stampD n₂) ++
        sfin.documents.drop a.documents.length) := by
    rw [hsim.doc, replFirst_append,
      map_replFirst (fun d => d.id == docId) (stampD n₂)
        (fun d => { d with tasks := tasks }) (fun d => { d with tasks := tasks })
        (fun x => rfl) (fun x _ => rfl) a.documents,
      hda]
    rfl
  have hlen := replFirst_length _ _ _ _ hda
  constructor
  · rw [show (setTasksById docId tasks b).departments = b.departments by
      unfold setTasksById; split <;> rfl]
    exact hsim.dept
  · rw [show (setTasksById docId tasks b).jobPositions = b.jobPositions by
      unfold setTasksById; split <;> rfl]
    exact hsim.jp
  · rw [show (setTasksById docId tasks b).nextId = b.nextId by
      unfold setTasksById; split <;> rfl]
    exact hsim.nid
  · rw [show (setTasksById docId tasks b).macros = b.macros by
      unfold setTasksById; split <;> rfl]
    rw [show (setTasksById docId tasks a).macros = a.macros by
      unfold setTasksById; split <;> rfl]
    exact hsim.mac
  · rw [show (setTasksById docId tasks b).documents = da.map (stampD n₂) ++
        sfin.documents.drop a.documents.length by
      unfold setTasksById; rw [hmap]]
    rw [show (setTasksById docId tasks a).documents = da by
      unfold setTasksById; rw [hda]]
    rw [hlen]

lemma sim_macroFind (n₂ : Nat) (sfin a b : Store) (hsim : Sim n₂ sfin a b) (code : String)
    (m₁ : MacroT) (hf : a.macros.find? (fun m => m.code == code) = some m₁) :
    b.macros.find? (fun m => m.code == code) = some (stampM n₂ m₁) := by
  rw [hsim.mac, List.find?_append,
    find?_map_pg (fun m => m.code == code) (stampM n₂) (fun x => rfl), hf]
  rfl

lemma sim_docFind (n₂ : Nat) (sfin a b : Store) (hsim : Sim n₂ sfin a b)
    (title : String) (mid : Nat) (d₁ : DocT)
    (hf : a.documents.find? (fun d => d.title == title && d.macro_id == mid) = some d₁) :
    b.documents.find? (fun d => d.title == title && d.macro_id == mid) =
      some (stampD n₂ d₁) := by
  rw [hsim.doc, List.find?_append,
    find?_map_pg (fun d => d.title == title && d.macro_id == mid) (stampD n₂)
      (fun x => rfl), hf]
  rfl

lemma sim_macroUpsert (n₁ n₂ : Nat) (sfin : Store) (a b : Store) (f : MacroFields)
    (hsim : Sim n₂ sfin a b) (hev : Evolve (macroUpsertRec n₁ f a) sfin) :
    Sim n₂ sfin (macroUpsertRec n₁ f a) (macroUpsertRec n₂ f b) := by
  cases hra : replFirst (fun m => m.code == f.code)
      (fun m => { m with code := f.code, name := f.name,
                         short_description := f.short_description,
                         description := f.description, created_at := n₁, updated_at := n₁ })
      a.macros with
  | some ma =>
    have hlen := replFirst_length _ _ _ _ hra
    have hrb : replFirst (fun m => m.code == f.code)
        (fun m => { m with code := f.code, name := f.name,
                           short_description := f.short_description,
                           description := f.description, created_at := n₂, updated_at := n₂ })
        b.macros = some (ma.map (stampM n₂) ++ sfin.macros.drop a.macros.length) := by
      rw [hsim.mac, replFirst_append,
        map_replFirst (fun m => m.code == f.code) (stampM n₂)
          (fun m => { m with code := f.code, name := f.name,
                             short_description := f.short_description,
                             description := f.description, created_at := n₁, updated_at := n₁ })
          (fun m => { m with code := f.code, name := f.name,
                             short_description := f.short_description,
                             description := f.description, created_at := n₂, updated_at := n₂ })
          (fun x => rfl) (fun x _ => rfl) a.macros, hra]
      rfl
    have ha' : macroUpsertRec n₁ f a = { a with macros := ma } := by
      unfold macroUpsertRec
      rw [hra]
    have hb' : macroUpsertRec n₂ f b = { b with macros := (ma.map (stampM n₂) ++
        sfin.macros.drop a.macros.length) } := by
      unfold macroUpsertRec
      rw [hrb]
    rw [ha', hb']
    refine ⟨hsim.dept, hsim.jp, hsim.nid, ?_, ?_⟩
    · dsimp only
      rw [hlen]
    · dsimp only
      exact hsim.doc
  | none =>
    have ha' : macroUpsertRec n₁ f a = { a with
        macros := a.macros ++ [⟨a.nextId, f.code, f.name, f.short_description,
          f.description, n₁, n₁⟩],
        nextId := a.nextId + 1 } := by
      unfold macroUpsertRec
      rw [hra]
    have hlen1 : (macroUpsertRec n₁ f a).macros.length = a.macros.length + 1 := by
      rw [ha']
      simp
    have hlt : a.macros.length < sfin.macros.length := by
      have := hev.macLen
      omega
    have hkey := hev.macKey a.macros.length (by omega) hlt
    have hmac1 : (macroUpsertRec n₁ f a).macros = a.macros ++
        [⟨a.nextId, f.code, f.name, f.short_description, f.description, n₁, n₁⟩] := by
      rw [ha']
    have hbnd : a.macros.length < (macroUpsertRec n₁ f a).macros.length := by omega
    have hgetc : (macroUpsertRec n₁ f a).macros[a.macros.length] =
        ⟨a.nextId, f.code, f.name, f.short_description, f.description, n₁, n₁⟩ := by
      simp only [hmac1]
      exact List.getElem_concat_length _ _ _ rfl (by simp)
    have hcode : sfin.macros[a.macros.length].code = f.code := by
      rw [hkey.1, hgetc]
    have hid : sfin.macros[a.macros.length].id = a.nextId := by
      rw [hkey.2, hgetc]
    have hdrop : sfin.macros.drop a.macros.length =
        sfin.macros[a.macros.length] :: sfin.macros.drop (a.macros.length + 1) :=
      List.drop_eq_getElem_cons hlt
    have hrb : replFirst (fun m => m.code == f.code)
        (fun m => { m with code := f.code, name := f.name,
                           short_description := f.short_description,
                           description := f.description, created_at := n₂, updated_at := n₂ })
        b.macros = some (a.macros.map (stampM n₂) ++
          (⟨sfin.macros[a.macros.length].id, f.code, f.name, f.short_description,
            f.description, n₂, n₂⟩ :: sfin.macros.drop (a.macros.length + 1))) := by
      rw [hsim.mac, hdrop, replFirst_append,
        map_replFirst (fun m => m.code == f.code) (stampM n₂)
          (fun m => { m with code := f.code, name := f.name,
                             short_description := f.short_description,
                             description := f.description, created_at := n₁, updated_at := n₁ })
          (fun m => { m with code := f.code, name := f.name,
                             short_description := f.short_description,
                             description := f.description, created_at := n₂, updated_at := n₂ })
          (fun x => rfl) (fun x _ => rfl) a.macros, hra]
      dsimp only [Option.map_none']
      rw [replFirst, if_pos (by rw [hcode]; simp)]
      rfl
    have hb' : macroUpsertRec n₂ f b = { b with macros := (a.macros.map (stampM n₂) ++
        (⟨sfin.macros[a.macros.length].id, f.code, f.name, f.short_description,
          f.description, n₂, n₂⟩ :: sfin.macros.drop (a.macros.length + 1))) } := by
      unfold macroUpsertRec
      rw [hrb]
    rw [ha', hb']
    refine ⟨hsim.dept, hsim.jp, hsim.nid, ?_, ?_⟩
    · dsimp only
      rw [hid]
      simp [stampM]
    · dsimp only
      exact hsim.doc

lemma sim_docUpsert (n₁ n₂ : Nat) (sfin : Store) (a b : Store) (f : DocFields)
    (hsim : Sim n₂ sfin a b) (hev : Evolve (docUpsertRec n₁ f a) sfin) :
    Sim n₂ sfin (docUpsertRec n₁ f a) (docUpsertRec n₂ f b) := by
  cases hra : replFirst (fun d => d.title == f.title && d.macro_id == f.macro_id)
      (fun d => { d with macro_id := f.macro_id, process_code := f.process_code,
                         title := f.title, description := f.description,
                         stakeholders := f.stakeholders, tasks := [], status := "draft",
                         version := "1.0", is_active := true,
                         implicated_actors := f.stakeholders,
                         created_at := n₁, updated_at := n₁ })
      a.documents with
  | some da =>
    have hlen := replFirst_length _ _ _ _ hra
    have hrb : replFirst (fun d => d.title == f.title && d.macro_id == f.macro_id)
        (fun d => { d with macro_id := f.macro_id, process_code := f.process_code,
                           title := f.title, description := f.description,
                           stakeholders := f.stakeholders, tasks := [], status := "draft",
                           version := "1.0", is_active := true,
                           implicated_actors := f.stakeholders,
                           created_at := n₂, updated_at := n₂ })
        b.documents = some (da.map (stampD n₂) ++
          sfin.documents.drop a.documents.length) := by
      rw [hsim.doc, replFirst_append,
        map_replFirst (fun d => d.title == f.title && d.macro_id == f.macro_id) (stampD n₂)
          (fun d => { d with macro_id := f.macro_id, process_code := f.process_code,
                             title := f.title, description := f.description,
                             stakeholders := f.stakeholders, tasks := [], status := "draft",
                             version := "1.0", is_active := true,
                             implicated_actors := f.stakeholders,
                             created_at := n₁, updated_at := n₁ })
          (fun d => { d with macro_id := f.macro_id, process_code := f.process_code,
                             title := f.title, description := f.description,
                             stakeholders := f.stakeholders, tasks := [], status := "draft",
                             version := "1.0", is_active := true,
                             implicated_actors := f.stakeholders,
                             created_at := n₂, updated_at := n₂ })
          (fun x => rfl) (fun x _ => rfl) a.documents, hra]
      rfl
    have ha' : docUpsertRec n₁ f a = { a with documents := da } := by
      unfold docUpsertRec
      rw [hra]
    have hb' : docUpsertRec n₂ f b = { b with documents := (da.map (stampD n₂) ++
        sfin.documents.drop a.documents.length) } := by
      unfold docUpsertRec
      rw [hrb]
    rw [ha', hb']
    refine ⟨hsim.dept, hsim.jp, hsim.nid, ?_, ?_⟩
    · dsimp only
      exact hsim.mac
    · dsimp only
      rw [hlen]
  | none =>
    have ha' : docUpsertRec n₁ f a = { a with
        documents := a.documents ++ [⟨a.nextId, f.macro_id, f.process_code, f.title,
          f.description, f.stakeholders, [], "draft", "1.0", true, f.stakeholders, n₁, n₁⟩],
        nextId := a.nextId + 1 } := by
      unfold docUpsertRec
      rw [hra]
    have hmac1 : (docUpsertRec n₁ f a).documents = a.documents ++
        [⟨a.nextId, f.macro_id, f.process_code, f.title, f.description, f.stakeholders,
          [], "draft", "1.0", true, f.stakeholders, n₁, n₁⟩] := by
      rw [ha']
    have hlen1 : (docUpsertRec n₁ f a).documents.length = a.documents.length + 1 := by
      rw [hmac1]
      simp
    have hlt : a.documents.length < sfin.documents.length := by
      have := hev.docLen
      omega
    have hkey := hev.docKey a.documents.length (by omega) hlt
    have hbnd : a.documents.length < (docUpsertRec n₁ f a).documents.length := by omega
    have hgetc : (docUpsertRec n₁ f a).documents[a.documents.length] =
        ⟨a.nextId, f.macro_id, f.process_code, f.title, f.description, f.stakeholders,
          [], "draft", "1.0", true, f.stakeholders, n₁, n₁⟩ := by
      simp only [hmac1]
      exact List.getElem_concat_length _ _ _ rfl (by simp)
    have htitle : sfin.documents[a.documents.length].title = f.title := by
      rw [hkey.1, hgetc]
    have hmid : sfin.documents[a.documents.length].macro_id = f.macro_id := by
      rw [hkey.2.1, hgetc]
    have hid : sfin.documents[a.documents.length].id = a.nextId := by
      rw [hkey.2.2, hgetc]
    have hdrop : sfin.documents.drop a.documents.length =
        sfin.documents[a.documents.length] ::
          sfin.documents.drop (a.documents.length + 1) :=
      List.drop_eq_getElem_cons hlt
    have hrb : replFirst (fun d => d.title == f.title && d.macro_id == f.macro_id)
        (fun d => { d with macro_id := f.macro_id, process_code := f.process_code,
                           title := f.title, description := f.description,
                           stakeholders := f.stakeholders, tasks := [], status := "draft",
                           version := "1.0", is_active := true,
                           implicated_actors := f.stakeholders,
                           created_at := n₂, updated_at := n₂ })
        b.documents = some (a.documents.map (stampD n₂) ++
          (⟨sfin.documents[a.documents.length].id, f.macro_id, f.process_code, f.title,
            f.description, f.stakeholders, [], "draft", "1.0", true, f.stakeholders,
            n₂, n₂⟩ :: sfin.documents.drop (a.documents.length + 1))) := by
      rw [hsim.doc, hdrop, replFirst_append,
        map_replFirst (fun d => d.title == f.title && d.macro_id == f.macro_id) (stampD n₂)
          (fun d => { d with macro_id := f.macro_id, process_code := f.process_code,
                             title := f.title, description := f.description,
                             stakeholders := f.stakeholders, tasks := [], status := "draft",
                             version := "1.0", is_active := true,
                             implicated_actors := f.stakeholders,
                             created_at := n₁, updated_at := n₁ })
          (fun d => { d with macro_id := f.macro_id, process_code := f.process_code,
                             title := f.title, description := f.description,
                             stakeholders := f.stakeholders, tasks := [], status := "draft",
                             version := "1.0", is_active := true,
                             implicated_actors := f.stakeholders,
                             created_at := n₂, updated_at := n₂ })
          (fun x => rfl) (fun x _ => rfl) a.documents, hra]
      dsimp only [Option.map_none']
      rw [replFirst, if_pos (by rw [htitle, hmid]; simp)]
      rfl
    have hb' : docUpsertRec n₂ f b = { b with documents := (a.documents.map (stampD n₂) ++
        (⟨sfin.documents[a.documents.length].id, f.macro_id, f.process_code, f.title,
          f.description, f.stakeholders, [], "draft", "1.0", true, f.stakeholders,
          n₂, n₂⟩ :: sfin.documents.drop (a.documents.length + 1))) } := by
      unfold docUpsertRec
      rw [hrb]
    rw [ha', hb']
    refine ⟨hsim.dept, hsim.jp, hsim.nid, ?_, ?_⟩
    · dsimp only
      exact hsim.mac
    · dsimp only
      rw [hid]
      simp [stampD]

lemma sim_stakeholderStep (n₁ n₂ : Nat) (sfin : Store) (a b a₁ : Store) (name base : String)
    (hsim : Sim n₂ sfin a b)
    (h1 : stakeholderStep n₁ a name base = some a₁)
    (hev : Evolve a₁ sfin)
    (b₁ : Store) (h2 : stakeholderStep n₂ b name base = some b₁) :
    b₁ = b ∧ Sim n₂ sfin a₁ b₁ := by
  unfold stakeholderStep at h1
  cases hrc1 : resolveCode a.departments name base with
  | none => rw [hrc1] at h1; cases h1
  | some code₁ =>
    rw [hrc1] at h1
    dsimp only at h1
    cases hfd1 : (deptUpsertIfAbsent n₁ name code₁ a).departments.find?
        (fun d => d.name == name) with
    | none => rw [hfd1] at h1; cases h1
    | some dept₁ =>
      rw [hfd1] at h1
      dsimp only at h1
      obtain rfl := Option.some_inj.mp h1
      -- run 1 facts
      have hmemd : ∃ d ∈ (deptUpsertIfAbsent n₁ name code₁ a).departments, d.name = name :=
        deptUpsert_mem n₁ name code₁ a
      have hevd : Evolve (deptUpsertIfAbsent n₁ name code₁ a) sfin :=
        evolve_trans (evolve_jobPosUpsert n₁ name dept₁.id (code₁ ++ "-H") _) hev
      have hnamefin : ∃ d ∈ sfin.departments, d.name = name := by
        obtain ⟨d, hd, hn⟩ := hmemd
        exact ⟨d, hevd.dept.subset hd, hn⟩
      have hmemj : ∃ j ∈ (jobPosUpsertIfAbsent n₁ name dept₁.id (code₁ ++ "-H")
          (deptUpsertIfAbsent n₁ name code₁ a)).jobPositions,
          j.title = name ∧ j.department_id = dept₁.id :=
        jobPosUpsert_mem n₁ name dept₁.id (code₁ ++ "-H") _
      have hjfin : ∃ j ∈ sfin.jobPositions, j.title = name ∧ j.department_id = dept₁.id := by
        obtain ⟨j, hj, hn⟩ := hmemj
        exact ⟨j, hev.jp.subset hj, hn⟩
      -- run 2: every write is a no-op
      unfold stakeholderStep at h2
      cases hrc2 : resolveCode b.departments name base with
      | none => rw [hrc2] at h2; cases h2
      | some code₂ =>
        rw [hrc2] at h2
        dsimp only at h2
        have hnoop2 : deptUpsertIfAbsent n₂ name code₂ b = b :=
          deptUpsert_noop n₂ name code₂ b (by rw [hsim.dept]; exact hnamefin)
        rw [hnoop2] at h2
        have hfd2 : b.departments.find? (fun d => d.name == name) = some dept₁ := by
          rw [hsim.dept]
          exact find?_of_prefix _ _ _ hevd.dept dept₁ hfd1
        rw [hfd2] at h2
        dsimp only at h2
        have hnoopj : jobPosUpsertIfAbsent n₂ name dept₁.id (code₂ ++ "-H") b = b :=
          jobPosUpsert_noop n₂ name dept₁.id (code₂ ++ "-H") b
            (by rw [hsim.jp]; exact hjfin)
        rw [hnoopj] at h2
        obtain rfl := Option.some_inj.mp h2
        refine ⟨rfl, ?_⟩
        -- a₁ touches only departments / jobPositions / nextId of a
        obtain ⟨hjm, hjd, _⟩ := jobPosUpsert_frame n₁ name dept₁.id (code₁ ++ "-H")
          (deptUpsertIfAbsent n₁ name code₁ a)
        obtain ⟨hdm, hdd, _⟩ := deptUpsert_frame n₁ name code₁ a
        exact ⟨hsim.dept, hsim.jp, hsim.nid,
          by rw [hjm, hdm]; exact hsim.mac,
          by rw [hjd, hdd]; exact hsim.doc⟩

lemma sim_processStakeholders (n₁ n₂ : Nat) (sfin : Store) :
    ∀ (cands : List (String × String)) (a b a' : Store) (ns₁ : List String)
      (h1 : processStakeholders n₁ cands a = some (a', ns₁))
      (b' : Store) (ns₂ : List String)
      (h2 : processStakeholders n₂ cands b = some (b', ns₂))
      (hsim : Sim n₂ sfin a b) (hev : Evolve a' sfin),
      b' = b ∧ ns₂ = ns₁ ∧ Sim n₂ sfin a' b' := by
  intro cands
  induction cands with
  | nil =>
    intro a b a' ns₁ h1 b' ns₂ h2 hsim hev
    rw [processStakeholders] at h1 h2
    obtain ⟨ha, hn⟩ := Prod.mk.injEq _ _ _ _ |>.mp (Option.some_inj.mp h1)
    obtain ⟨hb, hn2⟩ := Prod.mk.injEq _ _ _ _ |>.mp (Option.some_inj.mp h2)
    rw [← ha, ← hb, ← hn, ← hn2]
    exact ⟨rfl, rfl, hsim⟩
  | cons c rest ih =>
    obtain ⟨name, base⟩ := c
    intro a b a' ns₁ h1 b' ns₂ h2 hsim hev
    rw [processStakeholders] at h1 h2
    cases hst1 : stakeholderStep n₁ a name base with
    | none => rw [hst1] at h1; cases h1
    | some a₁ =>
      rw [hst1] at h1
      dsimp only at h1
      cases hre1 : processStakeholders n₁ rest a₁ with
      | none => rw [hre1] at h1; cases h1
      | some pr1 =>
        obtain ⟨a2, nsr1⟩ := pr1
        rw [hre1] at h1
        dsimp only at h1
        obtain ⟨ha2, hns1⟩ := Prod.mk.injEq _ _ _ _ |>.mp (Option.some_inj.mp h1)
        cases hst2 : stakeholderStep n₂ b name base with
        | none => rw [hst2] at h2; cases h2
        | some b₁ =>
          rw [hst2] at h2
          dsimp only at h2
          have hev1 : Evolve a₁ sfin := by
            refine evolve_trans (evolve_processStakeholders n₁ rest a₁ a2 nsr1 hre1) ?_
            rw [ha2]
            exact hev
          obtain ⟨rfl, hsim1⟩ :=
            sim_stakeholderStep n₁ n₂ sfin a b a₁ name base hsim hst1 hev1 b₁ hst2
          cases hre2 : processStakeholders n₂ rest b₁ with
          | none => rw [hre2] at h2; cases h2
          | some pr2 =>
            obtain ⟨b2, nsr2⟩ := pr2
            rw [hre2] at h2
            dsimp only at h2
            obtain ⟨hb2, hns2⟩ := Prod.mk.injEq _ _ _ _ |>.mp (Option.some_inj.mp h2)
            obtain ⟨hbb, hnn, hsim2⟩ := ih a₁ b₁ a2 nsr1 hre1 b2 nsr2 hre2 hsim1
              (by rw [ha2]; exact hev)
            refine ⟨by rw [← hb2, hbb], by rw [← hns1, ← hns2, hnn], ?_⟩
            rw [← ha2, ← hb2]
            exact hsim2

lemma sim_importRows (n₁ n₂ : Nat) (sfin : Store) (mc : String) (mid : Nat) :
    ∀ (rows : List RowData) (cur : Option CurProc) (tasks : List TaskT) (cnt : Nat)
      (a b a' : Store) (tr₁ : List ProcGroup)
      (h1 : importRows n₁ mc mid rows cur tasks cnt a = some (a', tr₁))
      (b' : Store) (tr₂ : List ProcGroup)
      (h2 : importRows n₂ mc mid rows cur tasks cnt b = some (b', tr₂))
      (hsim : Sim n₂ sfin a b)
      (hcur : ∀ c, cur = some c → ∃ d ∈ a.documents, d.id = c.docId)
      (hev : Evolve a' sfin),
      Sim n₂ sfin a' b' := by
  intro rows
  induction rows with
  | nil =>
    intro cur tasks cnt a b a' tr₁ h1 b' tr₂ h2 hsim hcur hev
    rw [importRows] at h1 h2
    obtain ⟨ha, _⟩ := Prod.mk.injEq _ _ _ _ |>.mp (Option.some_inj.mp h1)
    obtain ⟨hb, _⟩ := Prod.mk.injEq _ _ _ _ |>.mp (Option.some_inj.mp h2)
    rw [← ha, ← hb]
    cases cur with
    | none => exact hsim
    | some c => exact sim_setTasks n₂ sfin a b hsim c.docId tasks (hcur c rfl)
  | cons r rest ih =>
    intro cur tasks cnt a b a' tr₁ h1 b' tr₂ h2 hsim hcur hev
    rw [importRows.eq_def] at h1 h2
    dsimp only at h1 h2
    by_cases hob : (r.pTitle != "" && cur.all (fun c => c.title != r.pTitle)) = true
    · rw [if_pos hob] at h1 h2
      have hsimf : Sim n₂ sfin (flushCur cur tasks a).1 (flushCur cur tasks b).1 := by
        cases cur with
        | none => exact hsim
        | some c => exact sim_setTasks n₂ sfin a b hsim c.docId tasks (hcur c rfl)
      cases hps1 : processStakeholders n₁ (resolveCandidates r.dContent)
          (flushCur cur tasks a).1 with
      | none => rw [hps1] at h1; cases h1
      | some pr1 =>
        obtain ⟨a2, stks1⟩ := pr1
        rw [hps1] at h1
        dsimp only at h1
        cases hfd1 : (docUpsertRec n₁ ⟨mid, mc ++ "_P" ++ Nat.repr (cnt + 1), r.pTitle,
            r.pDesc, stks1⟩ a2).documents.find?
            (fun d => d.title == r.pTitle && d.macro_id == mid) with
        | none => rw [hfd1] at h1; cases h1
        | some d₁ =>
          rw [hfd1] at h1
          dsimp only at h1
          cases hps2 : processStakeholders n₂ (resolveCandidates r.dContent)
              (flushCur cur tasks b).1 with
          | none => rw [hps2] at h2; cases h2
          | some pr2 =>
            obtain ⟨b2, stks2⟩ := pr2
            rw [hps2] at h2
            dsimp only at h2
            by_cases htc : (r.tContent != "") = true
            · rw [if_pos htc] at h1
              obtain ⟨q, hq1, heq1⟩ := Option.map_eq_some'.mp h1
              obtain ⟨q1, q2⟩ := q
              have hqa : q1 = a' := congrArg Prod.fst heq1
              have hevq : Evolve q1 sfin := by rw [hqa]; exact hev
              have heva2 : Evolve a2 sfin :=
                evolve_trans (evolve_docUpsertRec n₁ _ a2)
                  (evolve_trans (evolve_importRows n₁ mc mid _ _ _ _ _ q1 q2 hq1) hevq)
              obtain ⟨rfl, hstk, hsim2⟩ := sim_processStakeholders n₁ n₂ sfin
                (resolveCandidates r.dContent) (flushCur cur tasks a).1
                (flushCur cur tasks b).1 a2 stks1 hps1 b2 stks2 hps2 hsimf heva2
              rw [hstk] at h2
              have heva3 : Evolve (docUpsertRec n₁ ⟨mid, mc ++ "_P" ++ Nat.repr (cnt + 1),
                  r.pTitle, r.pDesc, stks1⟩ a2) sfin :=
                evolve_trans (evolve_importRows n₁ mc mid _ _ _ _ _ q1 q2 hq1) hevq
              have hsim3 := sim_docUpsert n₁ n₂ sfin a2 _
                ⟨mid, mc ++ "_P" ++ Nat.repr (cnt + 1), r.pTitle, r.pDesc, stks1⟩
                hsim2 heva3
              have hfd2 := sim_docFind n₂ sfin _ _ hsim3 r.pTitle mid d₁ hfd1
              rw [hfd2] at h2
              dsimp only [stampD] at h2
              rw [if_pos htc] at h2
              obtain ⟨w, hw1, heq2⟩ := Option.map_eq_some'.mp h2
              obtain ⟨w1, w2⟩ := w
              have hwb : w1 = b' := congrArg Prod.fst heq2
              have hres := ih (some ⟨r.pTitle, d₁.process_code, d₁.id⟩)
                [⟨d₁.process_code ++ "_T" ++ Nat.repr 1, r.tContent, 1⟩] (cnt + 1)
                _ _ q1 q2 hq1 w1 w2 hw1 hsim3
                (fun c hc => by
                  obtain rfl := Option.some_inj.mp hc
                  exact ⟨d₁, List.mem_of_find?_eq_some hfd1, rfl⟩)
                hevq
              rw [← hqa, ← hwb]
              exact hres
            · rw [if_neg htc] at h1
              obtain ⟨q, hq1, heq1⟩ := Option.map_eq_some'.mp h1
              obtain ⟨q1, q2⟩ := q
              have hqa : q1 = a' := congrArg Prod.fst heq1
              have hevq : Evolve q1 sfin := by rw [hqa]; exact hev
              have heva2 : Evolve a2 sfin :=
                evolve_trans (evolve_docUpsertRec n₁ _ a2)
                  (evolve_trans (evolve_importRows n₁ mc mid _ _ _ _ _ q1 q2 hq1) hevq)
              obtain ⟨rfl, hstk, hsim2⟩ := sim_processStakeholders n₁ n₂ sfin
                (resolveCandidates r.dContent) (flushCur cur tasks a).1
                (flushCur cur tasks b).1 a2 stks1 hps1 b2 stks2 hps2 hsimf heva2
              rw [hstk] at h2
              have heva3 : Evolve (docUpsertRec n₁ ⟨mid, mc ++ "_P" ++ Nat.repr (cnt + 1),
                  r.pTitle, r.pDesc, stks1⟩ a2) sfin :=
                evolve_trans (evolve_importRows n₁ mc mid _ _ _ _ _ q1 q2 hq1) hevq
              have hsim3 := sim_docUpsert n₁ n₂ sfin a2 _
                ⟨mid, mc ++ "_P" ++ Nat.repr (cnt + 1), r.pTitle, r.pDesc, stks1⟩
                hsim2 heva3
              have hfd2 := sim_docFind n₂ sfin _ _ hsim3 r.pTitle mid d₁ hfd1
              rw [hfd2] at h2
              dsimp only [stampD] at h2
              rw [if_neg htc] at h2
              obtain ⟨w, hw1, heq2⟩ := Option.map_eq_some'.mp h2
              obtain ⟨w1, w2⟩ := w
              have hwb : w1 = b' := congrArg Prod.fst heq2
              have hres := ih (some ⟨r.pTitle, d₁.process_code, d₁.id⟩) [] (cnt + 1)
                _ _ q1 q2 hq1 w1 w2 hw1 hsim3
                (fun c hc => by
                  obtain rfl := Option.some_inj.mp hc
                  exact ⟨d₁, List.mem_of_find?_eq_some hfd1, rfl⟩)
                hevq
              rw [← hqa, ← hwb]
              exact hres
    · rw [if_neg hob] at h1 h2
      by_cases htc : (r.tContent != "") = true
      · rw [if_pos htc] at h1 h2
        cases cur with
        | none => simp at h1
        | some c =>
          dsimp only at h1 h2
          exact ih _ _ _ _ _ _ _ h1 _ _ h2 hsim (fun c' hc' => by
            obtain rfl := Option.some_inj.mp hc'
            exact hcur c rfl) hev
      · rw [if_neg htc] at h1 h2
        exact ih _ _ _ _ _ _ _ h1 _ _ h2 hsim hcur hev

lemma sim_importSheet (n₁ n₂ : Nat) (sfin : Store) (nm : String) (g : List (List Cell))
    (a b a' : Store) (h1 : importSheet n₁ nm g a = some a')
    (b' : Store) (h2 : importSheet n₂ nm g b = some b')
    (hsim : Sim n₂ sfin a b) (hev : Evolve a' sfin) :
    Sim n₂ sfin a' b' := by
  unfold importSheet at h1 h2
  cases hc0 : iloc2 g 0 0 with
  | none => rw [hc0] at h1; cases h1
  | some c0 =>
    rw [hc0] at h1 h2
    dsimp only at h1 h2
    cases hds : (if 3 < g.length then (iloc2 g 3 0).map cleanText else some "") with
    | none => rw [hds] at h1; cases h1
    | some mdesc =>
      rw [hds] at h1 h2
      dsimp only at h1 h2
      cases hfm1 : (macroUpsertRec n₁ (macroFieldsOf (cleanText c0) nm mdesc) a).macros.find?
          (fun m => m.code == (macroFieldsOf (cleanText c0) nm mdesc).code) with
      | none => rw [hfm1] at h1; cases h1
      | some mrec₁ =>
        rw [hfm1] at h1
        dsimp only at h1
        cases hhd : findHeaderRow g with
        | none => rw [hhd] at h1; cases h1
        | some o =>
          rw [hhd] at h1 h2
          cases o with
          | none =>
            obtain rfl := Option.some_inj.mp h1
            have hsim1 := sim_macroUpsert n₁ n₂ sfin a b
              (macroFieldsOf (cleanText c0) nm mdesc) hsim hev
            have hfm2 := sim_macroFind n₂ sfin _ _ hsim1
              (macroFieldsOf (cleanText c0) nm mdesc).code mrec₁ hfm1
            rw [hfm2] at h2
            dsimp only at h2
            obtain rfl := Option.some_inj.mp h2
            exact hsim1
          | some hidx =>
            dsimp only at h1
            cases hir1 : importRows n₁ (macroFieldsOf (cleanText c0) nm mdesc).code
                mrec₁.id ((g.drop (hidx + 1)).map (readRow (buildColMap (g[hidx]?.getD []))
                  (g.headD []).length)) none [] 0
                (macroUpsertRec n₁ (macroFieldsOf (cleanText c0) nm mdesc) a) with
            | none => rw [hir1] at h1; cases h1
            | some p1 =>
              rw [hir1] at h1
              dsimp only at h1
              obtain rfl := Option.some_inj.mp h1
              have hev1 : Evolve (macroUpsertRec n₁
                  (macroFieldsOf (cleanText c0) nm mdesc) a) sfin :=
                evolve_trans (evolve_importRows n₁ _ _ _ _ _ _ _ p1.1 p1.2
                  (by rw [hir1])) hev
              have hsim1 := sim_macroUpsert n₁ n₂ sfin a b
                (macroFieldsOf (cleanText c0) nm mdesc) hsim hev1
              have hfm2 := sim_macroFind n₂ sfin _ _ hsim1
                (macroFieldsOf (cleanText c0) nm mdesc).code mrec₁ hfm1
              rw [hfm2] at h2
              dsimp only [stampM] at h2
              cases hir2 : importRows n₂ (macroFieldsOf (cleanText c0) nm mdesc).code
                  mrec₁.id ((g.drop (hidx + 1)).map (readRow (buildColMap (g[hidx]?.getD []))
                    (g.headD []).length)) none [] 0
                  (macroUpsertRec n₂ (macroFieldsOf (cleanText c0) nm mdesc) b) with
              | none => rw [hir2] at h2; cases h2
              | some p2 =>
                rw [hir2] at h2
                dsimp only at h2
                obtain rfl := Option.some_inj.mp h2
                exact sim_importRows n₁ n₂ sfin _ mrec₁.id _ none [] 0 _ _ p1.1 p1.2
                  (by rw [hir1]) p2.1 p2.2 (by rw [hir2]) hsim1
                  (fun c hc => by cases hc) hev

lemma sim_importData (n₁ n₂ : Nat) (sfin : Store) :
    ∀ (w : Workbook) (a b a' : Store)
      (h1 : importData n₁ w a = some a')
      (b' : Store) (h2 : importData n₂ w b = some b')
      (hsim : Sim n₂ sfin a b) (hev : Evolve a' sfin),
      Sim n₂ sfin a' b' := by
  intro w
  induction w with
  | nil =>
    intro a b a' h1 b' h2 hsim hev
    rw [importData] at h1 h2
    obtain rfl := Option.some_inj.mp h1
    obtain rfl := Option.some_inj.mp h2
    exact hsim
  | cons sh rest ih =>
    obtain ⟨nm, g⟩ := sh
    intro a b a' h1 b' h2 hsim hev
    rw [importData] at h1 h2
    cases hs1 : importSheet n₁ nm g a with
    | none => rw [hs1] at h1; cases h1
    | some a1 =>
      rw [hs1] at h1
      dsimp only at h1
      cases hs2 : importSheet n₂ nm g b with
      | none => rw [hs2] at h2; cases h2
      | some b1 =>
        rw [hs2] at h2
        dsimp only at h2
        have hev1 : Evolve a1 sfin :=
          evolve_trans (evolve_importData n₁ rest a1 a' h1) hev
        have hsim1 := sim_importSheet n₁ n₂ sfin nm g a b a1 hs1 b1 hs2 hsim hev1
        exact ih a1 b1 a' h1 b' h2 hsim1 hev

/-- C5: re-running the importer on the same workbook against the store
the first run produced (starting from the wiped store, as
`full_repopulate.py` does) leaves the department and job-position
collections exactly as the first run left them — insert-if-absent
writes never touch existing records — while every process document
keeps its identity key `(title, macro_id)` (and its `_id` and position)
but has its content fully rewritten with the second run's data, i.e.
the same fields with the second run's timestamps. -/
theorem c5_rerun_preserves_reference_data (w : Workbook) (n₁ n₂ : Nat) (s₁ s₂ : Store)
    (h1 : importData n₁ w emptyStore = some s₁)
    (h2 : importData n₂ w s₁ = some s₂) :
    s₂.departments = s₁.departments ∧
    s₂.jobPositions = s₁.jobPositions ∧
    s₂.documents = s₁.documents.map (stampD n₂) ∧
    s₂.documents.map (fun d => (d.title, d.macro_id)) =
      s₁.documents.map (fun d => (d.title, d.macro_id)) := by
  have hsim0 : Sim n₂ s₁ emptyStore s₁ := by
    refine ⟨rfl, rfl, rfl, ?_, ?_⟩
    · show s₁.macros = List.map (stampM n₂) [] ++ s₁.macros.drop (List.length [])
      simp
    · show s₁.documents = List.map (stampD n₂) [] ++ s₁.documents.drop (List.length [])
      simp
  have hfin := sim_importData n₁ n₂ s₁ w emptyStore s₁ s₁ h1 s₂ h2 hsim0 (evolve_refl s₁)
  have hdoc : s₂.documents = s₁.documents.map (stampD n₂) := by
    have := hfin.doc
    rwa [List.drop_length, List.append_nil] at this
  refine ⟨hfin.dept, hfin.jp, hdoc, ?_⟩
  rw [hdoc, List.map_map]
  rfl

/-- A complete one-sheet workbook exercising both process groups and
stakeholder resolution. -/
def c5grid : List (List Cell) :=
  [[some "Macro 01: Strategy", none, none, none, none],
   [none, none, none, none, none],
   [some "Description Détaillée", some "Process", some "Description du process",
    some "Identification des tâches", some "Directions concernées"],
   [some "Cette macro couvre", some "Process Alpha", some "Desc A", some "Task one",
    some "Direction Network Engineering, IT"],
   [none, none, none, some "Task two", none],
   [none, some "Process Beta", some "Desc B", some "Task x", some "IT"]]

theorem c5_rerun_preserves_reference_data_witness :
    ∃ s₁ s₂, importData 5 [("S1", c5grid)] emptyStore = some s₁ ∧
      importData 9 [("S1", c5grid)] s₁ = some s₂ ∧
      s₂.departments = s₁.departments ∧
      s₂.jobPositions = s₁.jobPositions ∧
      s₂.documents = s₁.documents.map (stampD 9) := by
  have hth := c5_rerun_preserves_reference_data [("S1", c5grid)] 5 9 _ _ rfl rfl
  exact ⟨_, _, rfl, rfl, hth.1, hth.2.1, hth.2.2.1⟩
